import Mathlib

/-!
Shallow embedding of the Goofspiel game engine
(open_spiel/games/goofspiel.cc) and proofs about it.

Machine integers (`int`) are modelled as `Int` (no overflow occurs for the
bounded quantities involved); `double` results are modelled as exact
rationals `ℚ`; `std::vector` as `List`; `std::set<int>` as a sorted,
duplicate-free `List Nat`.  Fatal checks (`SPIEL_CHECK_*`) become
hypotheses of the theorems; parse errors become `Except.error`.
-/

namespace Goofspiel

/-- The points_order parameter values (goofspiel.h / ParsePointsOrder). -/
inductive PointsOrder where
  | random
  | ascending
  | descending
deriving DecidableEq, Repr

/-- The returns_type parameter values (goofspiel.h / ParseReturnsType). -/
inductive ReturnsType where
  | winLoss
  | pointDifference
  | totalPoints
deriving DecidableEq, Repr

/-- The values taken by `current_player_` during play: `kChancePlayerId`
or `kSimultaneousPlayerId` (the transient `kInvalidPlayer` of the
constructor initialiser list is always overwritten before the
constructor returns, since every `PointsOrder` branch assigns it). -/
inductive NodePlayer where
  | chance
  | simultaneous
deriving DecidableEq, Repr

/-- The immutable game configuration produced by `GoofspielGame`'s
constructor (fields `num_cards_`, `num_players_`, `points_order_`,
`returns_type_`, `impinfo_`). -/
structure GoofspielGame where
  numCards : Nat
  numPlayers : Nat
  pointsOrder : PointsOrder
  returnsType : ReturnsType
  impinfo : Bool
deriving DecidableEq, Repr

/-- The mutable per-play-through state `GoofspielState`.  The first five
fields are the copies of the configuration that the constructor stores in
the state. -/
structure GoofspielState where
  numCards : Nat
  numPlayers : Nat
  pointsOrder : PointsOrder
  returnsType : ReturnsType
  impinfo : Bool
  currentPlayer : NodePlayer
  winners : List Nat
  turns : Nat
  pointCard : Int
  pointCardSequence : List Nat
  winSequence : List (Option Nat)
  actionsHistory : List (List Nat)
  points : List Int
  playerHands : List (List Bool)
deriving DecidableEq, Repr

/-- `GoofspielState::DealPointCard`: records the new face-up card and
appends it to `point_card_sequence_`. -/
def dealPointCard (s : GoofspielState) (c : Nat) : GoofspielState :=
  { s with pointCard := (c : Int),
           pointCardSequence := s.pointCardSequence ++ [c] }

/-- The `GoofspielState` constructor: zero points, full hands, and the
initial node per `points_order_` (random starts at a chance node with no
card revealed; ascending/descending deal card `0` / `num_cards - 1` and
start at a simultaneous node). -/
def initialState (g : GoofspielGame) : GoofspielState :=
  let base : GoofspielState :=
    { numCards := g.numCards
      numPlayers := g.numPlayers
      pointsOrder := g.pointsOrder
      returnsType := g.returnsType
      impinfo := g.impinfo
      currentPlayer := NodePlayer.simultaneous
      winners := []
      turns := 0
      pointCard := -1
      pointCardSequence := []
      winSequence := []
      actionsHistory := []
      points := List.replicate g.numPlayers 0
      playerHands := List.replicate g.numPlayers (List.replicate g.numCards true) }
  match g.pointsOrder with
  | PointsOrder.random => { base with currentPlayer := NodePlayer.chance }
  | PointsOrder.ascending =>
      { dealPointCard base 0 with currentPlayer := NodePlayer.simultaneous }
  | PointsOrder.descending =>
      { dealPointCard base (g.numCards - 1) with
          currentPlayer := NodePlayer.simultaneous }

/-- `GoofspielState::IsTerminal`: `turns_ == num_cards_`. -/
def isTerminal (s : GoofspielState) : Bool :=
  s.turns == s.numCards

/-- `State::IsChanceNode`: the current player is the chance player (and
the state is not terminal, since `CurrentPlayer()` returns the terminal
sentinel at terminal states). -/
def isChanceNode (s : GoofspielState) : Bool :=
  !isTerminal s && s.currentPlayer == NodePlayer.chance

/-- `State::IsSimultaneousNode`: likewise for the simultaneous player. -/
def isSimultaneousNode (s : GoofspielState) : Bool :=
  !isTerminal s && s.currentPlayer == NodePlayer.simultaneous

/-- Modelled from the spec: `CurrentPointValue()` is declared in
goofspiel.h (not under src/); the spec fixes value-card `c`'s worth as
`c + 1` ("Round 1 reveals value card 0 (worth 1 point)"). -/
def currentPointValue (s : GoofspielState) : Int :=
  s.pointCard + 1

/-- `GoofspielState::ChanceOutcomes`: uniform distribution over the cards
not yet in `point_card_sequence_` (the C++ builds a `std::set` from the
sequence; we model its size with `List.dedup`). -/
def chanceOutcomes (s : GoofspielState) : List (Nat × ℚ) :=
  let played := s.pointCardSequence.dedup
  let n : Nat := s.numCards - played.length
  ((List.range s.numCards).filter (fun i => decide (i ∉ played))).map
    (fun i => (i, (1 : ℚ) / (n : ℚ)))

/-- `State::LegalChanceOutcomes`: the support of `ChanceOutcomes`. -/
def legalChanceOutcomes (s : GoofspielState) : List Nat :=
  (chanceOutcomes s).map Prod.fst

/-- `GoofspielState::LegalActions(player)` for an ordinary player: the
bids still set in that player's hand bit-vector. -/
def legalActionsOf (s : GoofspielState) (p : Nat) : List Nat :=
  (List.range (s.playerHands.getD p []).length).filter
    (fun bid => (s.playerHands.getD p []).getD bid false)

/-- The chance branch of `GoofspielState::DoApplyAction`: deal the drawn
card and move to the simultaneous node. -/
def doApplyActionChance (s : GoofspielState) (a : Nat) : GoofspielState :=
  { dealPointCard s a with currentPlayer := NodePlayer.simultaneous }

/-- The max-bid scan of `DoApplyActions` (lines 324-337): running
maximum (initial `-1`), count of bids equal to the running maximum, and
index of the player who set the running maximum (initial `-1`). -/
def bidScan : Nat → Int → Nat → Int → List Nat → Int × Nat × Int
  | _, maxBid, numMaxBids, maxBidder, [] => (maxBid, numMaxBids, maxBidder)
  | p, maxBid, numMaxBids, maxBidder, a :: rest =>
    if (a : Int) > maxBid then bidScan (p + 1) (a : Int) 1 (p : Int) rest
    else if (a : Int) = maxBid then bidScan (p + 1) maxBid (numMaxBids + 1) maxBidder rest
    else bidScan (p + 1) maxBid numMaxBids maxBidder rest

/-- The scan started as in the C++ loop. -/
def bidFold (actions : List Nat) : Int × Nat × Int :=
  bidScan 0 (-1) 0 (-1) actions

/-- Lines 324-354 of `DoApplyActions`: score the round (unique maximal
bidder takes the current point value, ties discard it), push the
round-winner entry and the joint action, and clear each played card. -/
def resolveRound (s : GoofspielState) (actions : List Nat) : GoofspielState :=
  let r := bidFold actions
  let numMaxBids := r.2.1
  let maxBidder := r.2.2.toNat
  let s1 :=
    if numMaxBids = 1 then
      { s with
          points := s.points.set maxBidder
            (s.points.getD maxBidder 0 + currentPointValue s),
          winSequence := s.winSequence ++ [some maxBidder] }
    else
      { s with winSequence := s.winSequence ++ [none] }
  let s2 := { s1 with actionsHistory := s1.actionsHistory ++ [actions] }
  { s2 with
      playerHands :=
        (List.range s2.numPlayers).map
          (fun p => (s2.playerHands.getD p []).set (actions.getD p 0) false) }

/-- Lines 356-367 of `DoApplyActions`: deal the next point card per the
ordering policy (random: go to a chance node with no card revealed;
ascending/descending: deal the adjacent card if one remains) and advance
the turn counter. -/
def dealNextAndAdvance (s : GoofspielState) : GoofspielState :=
  let s1 :=
    match s.pointsOrder with
    | PointsOrder.random =>
        { s with currentPlayer := NodePlayer.chance, pointCard := -1 }
    | PointsOrder.ascending =>
        if s.pointCard < (s.numCards : Int) - 1 then
          dealPointCard s (s.pointCard + 1).toNat
        else s
    | PointsOrder.descending =>
        if s.pointCard > 0 then dealPointCard s (s.pointCard - 1).toNat
        else s
  { s1 with turns := s1.turns + 1 }

/-- The winner scan of lines 388-400 of `DoApplyActions`: player index,
running maximum (initial `-1`), accumulated winner set (`std::set`
insertion in increasing player order is modelled by appending). -/
def winScan : Nat → Int → List Nat → List Int → Int × List Nat
  | _, m, ws, [] => (m, ws)
  | k, m, ws, a :: t =>
    if a > m then winScan (k + 1) a [k] t
    else if a = m then winScan (k + 1) m (ws ++ [k]) t
    else winScan (k + 1) m ws t

/-- Lines 388-400 of `DoApplyActions`: at the end of the game, scan the
point totals for the set of maximal scorers. -/
def setWinners (s : GoofspielState) : GoofspielState :=
  { s with winners := (winScan 0 (-1) s.winners s.points).2 }

/-- The winner set the scan computes from a point vector (the scan runs
with the initially empty `winners_`). -/
def winnersOf (points : List Int) : List Nat :=
  (winScan 0 (-1) [] points).2

/-- The forced last actions of lines 380-386: each player's unique
remaining legal action. -/
def forcedActions (s : GoofspielState) : List Nat :=
  (List.range s.numPlayers).map (fun p => (legalActionsOf s p).headD 0)

/-- `GoofspielState::DoApplyActions`, fuelled.  The C++ function
recurses into itself once when exactly one round remains after the
resolution (lines 369-387); the recursion depth is bounded by 2 because
the recursive call raises `turns_` to `num_cards_`. -/
def doApplyActionsAux : Nat → GoofspielState → List Nat → GoofspielState
  | 0, s, _ => s
  | fuel + 1, s, actions =>
    let s1 := dealNextAndAdvance (resolveRound s actions)
    if s1.turns = s1.numCards - 1 then
      let s2 :=
        if isChanceNode s1 then
          doApplyActionChance s1 ((legalChanceOutcomes s1).headD 0)
        else s1
      doApplyActionsAux fuel s2 (forcedActions s2)
    else if s1.turns = s1.numCards then setWinners s1
    else s1

/-- `GoofspielState::DoApplyActions`. -/
def doApplyActions (s : GoofspielState) (actions : List Nat) : GoofspielState :=
  doApplyActionsAux 2 s actions

/-- The validity conditions checked by `SPIEL_CHECK_*` at the top of
`DoApplyActions`: one action per player, each in range and still held. -/
def ValidActions (s : GoofspielState) (actions : List Nat) : Prop :=
  actions.length = s.numPlayers ∧
  ∀ p, p < s.numPlayers →
    actions.getD p 0 < s.numCards ∧
    (s.playerHands.getD p []).getD (actions.getD p 0) false = true

instance (s : GoofspielState) (actions : List Nat) :
    Decidable (ValidActions s actions) := by
  unfold ValidActions; infer_instance

/-- `GoofspielState::Returns`, with `double` arithmetic modelled exactly
over `ℚ`. -/
def returnsVec (s : GoofspielState) : List ℚ :=
  if s.turns ≠ s.numCards then List.replicate s.numPlayers (0 : ℚ)
  else
    match s.returnsType with
    | ReturnsType.winLoss =>
        if s.winners.length = s.numPlayers then
          List.replicate s.numPlayers (0 : ℚ)
        else
          let numWinners := s.winners.length
          let numLosers := s.numPlayers - numWinners
          s.winners.foldl
            (fun acc w => acc.set w ((1 : ℚ) / (numWinners : ℚ)))
            (List.replicate s.numPlayers (-(1 : ℚ) / (numLosers : ℚ)))
    | ReturnsType.pointDifference =>
        let sum : ℚ := s.points.foldl (fun (acc : ℚ) (x : Int) => acc + (x : ℚ)) 0
        s.points.map (fun (x : Int) => (x : ℚ) - sum / (s.numPlayers : ℚ))
    | ReturnsType.totalPoints =>
        s.points.map (fun (x : Int) => (x : ℚ))

/-- The triangular number `1 + 2 + ... + n = n (n+1) / 2` (the division
is exact). -/
def triangle (n : Nat) : Nat := n * (n + 1) / 2

/-- `GoofspielGame::MinUtility`.  In the point-difference branch the C++
computes `-(num_cards_ * (num_cards_ + 1) / 2) / num_players_` in `int`
arithmetic: truncating division of nonnegative operands, i.e. `Nat`
division, then negation. -/
def minUtility (g : GoofspielGame) : ℚ :=
  match g.returnsType with
  | ReturnsType.winLoss => -1
  | ReturnsType.pointDifference => -((triangle g.numCards / g.numPlayers : Nat) : ℚ)
  | ReturnsType.totalPoints => 0

/-- `GoofspielGame::MaxUtility`.  In the point-difference branch the sum
`num_cards_ * (num_cards_ + 1) / 2` is exact integer arithmetic stored
in a `double`, and `(num_players_ - 1) * sum / num_players_` is then
`double` arithmetic, modelled exactly over `ℚ`. -/
def maxUtility (g : GoofspielGame) : ℚ :=
  match g.returnsType with
  | ReturnsType.winLoss => 1
  | ReturnsType.pointDifference =>
      ((g.numPlayers - 1 : Nat) : ℚ) * ((triangle g.numCards : Nat) : ℚ) /
        (g.numPlayers : ℚ)
  | ReturnsType.totalPoints => ((triangle g.numCards : Nat) : ℚ)

/-- The raw parameters consumed by the `GoofspielGame` constructor. -/
structure GoofspielParams where
  numCards : Nat
  players : Nat
  pointsOrder : String
  returnsType : String
  impInfo : Bool

/-- `ParsePointsOrder`: fatal error on unrecognized values, modelled as
`Except.error` carrying the fatal message. -/
def parsePointsOrder (s : String) : Except String PointsOrder :=
  if s = "random" then Except.ok PointsOrder.random
  else if s = "descending" then Except.ok PointsOrder.descending
  else if s = "ascending" then Except.ok PointsOrder.ascending
  else Except.error ("Unrecognized points_order parameter: " ++ s)

/-- `ParseReturnsType`: fatal error on unrecognized values. -/
def parseReturnsType (s : String) : Except String ReturnsType :=
  if s = "win_loss" then Except.ok ReturnsType.winLoss
  else if s = "point_difference" then Except.ok ReturnsType.pointDifference
  else if s = "total_points" then Except.ok ReturnsType.totalPoints
  else Except.error ("Unrecognized returns_type parameter: " ++ s)

/-- The `GoofspielGame` constructor: both enum parameters are parsed in
the member-initialiser list, so an unrecognized value aborts
construction and no game object is produced. -/
def mkGoofspielGame (p : GoofspielParams) : Except String GoofspielGame :=
  match parsePointsOrder p.pointsOrder with
  | Except.error e => Except.error e
  | Except.ok po =>
    match parseReturnsType p.returnsType with
    | Except.error e => Except.error e
    | Except.ok rt =>
        Except.ok
          { numCards := p.numCards
            numPlayers := p.players
            pointsOrder := po
            returnsType := rt
            impinfo := p.impInfo }

/-- `PrivateInfoType` from observer.h. -/
inductive PrivateInfoType where
  | noPlayers
  | singlePlayer
  | allPlayers
deriving DecidableEq, Repr

/-- `IIGObservationType`: the observer configuration flags. -/
structure IIGObsType where
  publicInfo : Bool
  perfectRecall : Bool
  privateInfo : PrivateInfoType
deriving DecidableEq, Repr

/-- A one-hot row of length `len` with a `1` at `idx` (all zero when
`idx` is out of range, matching a skipped write). -/
def oneHot (len idx : Nat) : List ℚ :=
  (List.range len).map (fun i => if i = idx then (1 : ℚ) else 0)

/-- An all-zero row, the freshly allocated tensor block contents. -/
def zerosQ (len : Nat) : List ℚ := List.replicate len (0 : ℚ)

/-- Modelled from the spec: `GoofspielGame::NumRounds()` is declared in
goofspiel.h (not under src/); the spec fixes the number of rounds as the
deck size `N` ("deck size N (number of cards, equal to number of
rounds)"). -/
def numRounds (s : GoofspielState) : Nat := s.numCards

/-- Modelled from the spec: `GoofspielGame::MaxPointSlots()` is declared
in goofspiel.h (not under src/); the spec calls it the "maximum
achievable point bucket count", i.e. one slot for each reachable total
`0 .. N (N+1) / 2`.  Only the block's width matters to the theorems
below. -/
def maxPointSlots (s : GoofspielState) : Nat := triangle s.numCards + 1

/-- `GoofspielState::NextPlayer` rotation: tensor row `n` describes
player `(observer + n) % P`. -/
def rotPlayer (s : GoofspielState) (player n : Nat) : Nat :=
  (player + n) % s.numPlayers

/-- `GoofspielObserver::WriteTensor`, modelled as the named blocks the
allocator produces, in allocation order, each flattened row-major.
Writes guarded by loop bounds in the C++ are reproduced with
`List.get?`/`getD` (absent entries leave the allocated zeros). -/
def writeTensor (s : GoofspielState) (player : Nat) (obs : IIGObsType) :
    List (String × List ℚ) :=
  (if obs.publicInfo then
    [("point_totals",
      ((List.range s.numPlayers).map (fun n =>
        oneHot (maxPointSlots s)
          (s.points.getD (rotPlayer s player n) 0).toNat)).flatten)] ++
    (if !s.impinfo then
      [("player_hands",
        ((List.range s.numPlayers).map (fun n =>
          (List.range s.numCards).map (fun c =>
            if (s.playerHands.getD (rotPlayer s player n) []).getD c false
            then (1 : ℚ) else 0))).flatten)]
     else []) ++
    [("win_sequence",
      ((List.range (numRounds s)).map (fun i =>
        match s.winSequence.get? i with
        | some (some w) => oneHot s.numPlayers w
        | _ => zerosQ s.numPlayers)).flatten)] ++
    (if obs.perfectRecall then
      [("point_card_sequence",
        ((List.range (numRounds s)).map (fun round =>
          match s.pointCardSequence.get? round with
          | some c => oneHot s.numCards c
          | none => zerosQ s.numCards)).flatten)]
     else
      [("point_card",
        match s.pointCardSequence.getLast? with
        | some c => oneHot s.numCards c
        | none => zerosQ s.numCards)])
   else []) ++
  (if s.impinfo && obs.privateInfo == PrivateInfoType.singlePlayer then
    [("player_hand",
      (List.range s.numCards).map (fun c =>
        if (s.playerHands.getD player []).getD c false then (1 : ℚ) else 0))] ++
    (if obs.perfectRecall then
      [("player_action_sequence",
        ((List.range (numRounds s)).map (fun round =>
          match s.actionsHistory.get? round with
          | some row => oneHot s.numCards (row.getD player 0)
          | none => zerosQ s.numCards)).flatten)]
     else [])
   else [])

/-- Modelled from the spec: the "no winner" sentinel `kInvalidPlayer`
printed into the win-sequence string lives in spiel_utils.h (not under
src/); its concrete numeric value (-3 in OpenSpiel) is immaterial to
every theorem below. -/
def kInvalidPlayer : Int := -3

/-- The integer stored in `win_sequence_` for one round. -/
def winnerToInt : Option Nat → Int
  | some w => (w : Int)
  | none => kInvalidPlayer

/-- String fragment listing a hand: the 1-based card numbers still
held, each followed by a space. -/
def handString (hand : List Bool) (numCards : Nat) : String :=
  String.join ((List.range numCards).map (fun c =>
    if hand.getD c false then toString (c + 1) ++ " " else ""))

/-- `GoofspielObserver::StringFrom`. -/
def stringFrom (s : GoofspielState) (player : Nat) (obs : IIGObsType) :
    String :=
  (if s.impinfo && obs.privateInfo == PrivateInfoType.singlePlayer then
    "P" ++ toString player ++ " hand: " ++
      handString (s.playerHands.getD player []) s.numCards ++ "\n" ++
    (if obs.perfectRecall then
      "P" ++ toString player ++ " action sequence: " ++
        String.join (s.actionsHistory.map (fun row =>
          toString (row.getD player 0) ++ " ")) ++ "\n"
     else "")
   else "") ++
  (if obs.publicInfo then
    (if obs.perfectRecall then
      "Point card sequence: " ++
        String.join (s.pointCardSequence.map (fun c =>
          toString (1 + c) ++ " ")) ++ "\n"
     else
      "Current point card: " ++ toString (currentPointValue s) ++ "\n") ++
    (if !s.impinfo then
      String.join ((List.range s.numPlayers).map (fun p =>
        "P" ++ toString p ++ " hand: " ++
          handString (s.playerHands.getD p []) s.numCards ++ "\n"))
     else "") ++
    "Win sequence: " ++
      String.join (s.winSequence.map (fun w =>
        toString (winnerToInt w) ++ " ")) ++ "\n" ++
    "Points: " ++
      String.join ((List.range s.numPlayers).map (fun p =>
        toString (s.points.getD p 0) ++ " ")) ++ "\n"
   else "")

/-- The states reachable by driving the state machine from the initial
state: chance draws at chance nodes (legal outcomes only) and validated
joint actions at simultaneous nodes. -/
inductive Reachable (g : GoofspielGame) : GoofspielState → Prop where
  | init : Reachable g (initialState g)
  | chance {s : GoofspielState} {a : Nat} :
      Reachable g s → isChanceNode s = true → a ∈ legalChanceOutcomes s →
      Reachable g (doApplyActionChance s a)
  | simMove {s : GoofspielState} {actions : List Nat} :
      Reachable g s → isSimultaneousNode s = true → ValidActions s actions →
      Reachable g (doApplyActions s actions)

/-! ## Helper lemmas -/

/-- The exact rational value of the triangular number. -/
lemma triangle_cast_q (n : Nat) :
    ((triangle n : Nat) : ℚ) = (n : ℚ) * ((n : ℚ) + 1) / 2 := by
  have h2 : 2 * triangle n = n * (n + 1) := by
    unfold triangle
    exact Nat.two_mul_div_two_of_even (Nat.even_mul_succ_self n)
  have := congrArg (fun m : Nat => ((m : ℚ))) h2
  push_cast at this
  linarith

/-! ## C9: construction fails fatally on unrecognized enum strings -/

/-- C9: for any parameter bundle whose `points_order` string is not one
of random/ascending/descending, or whose `returns_type` string is not
one of win_loss/point_difference/total_points, `GoofspielGame`
construction aborts with a descriptive fatal error naming the offending
parameter, and no game object is produced. -/
theorem mkGoofspielGame_rejects_bad_enums (p : GoofspielParams)
    (h : (p.pointsOrder ≠ "random" ∧ p.pointsOrder ≠ "ascending" ∧
            p.pointsOrder ≠ "descending") ∨
         (p.returnsType ≠ "win_loss" ∧ p.returnsType ≠ "point_difference" ∧
            p.returnsType ≠ "total_points")) :
    ∃ msg, mkGoofspielGame p = Except.error msg ∧
      (msg = "Unrecognized points_order parameter: " ++ p.pointsOrder ∨
       msg = "Unrecognized returns_type parameter: " ++ p.returnsType) := by
  rcases h with ⟨h1, h2, h3⟩ | ⟨h1, h2, h3⟩
  · refine ⟨"Unrecognized points_order parameter: " ++ p.pointsOrder, ?_, Or.inl rfl⟩
    unfold mkGoofspielGame parsePointsOrder
    simp [h1, h2, h3]
  · by_cases hr : p.pointsOrder = "random"
    · refine ⟨"Unrecognized returns_type parameter: " ++ p.returnsType, ?_, Or.inr rfl⟩
      unfold mkGoofspielGame parsePointsOrder parseReturnsType
      simp [hr, h1, h2, h3]
    · by_cases hd : p.pointsOrder = "descending"
      · refine ⟨"Unrecognized returns_type parameter: " ++ p.returnsType, ?_, Or.inr rfl⟩
        unfold mkGoofspielGame parsePointsOrder parseReturnsType
        simp [hr, hd, h1, h2, h3]
      · by_cases ha : p.pointsOrder = "ascending"
        · refine ⟨"Unrecognized returns_type parameter: " ++ p.returnsType, ?_, Or.inr rfl⟩
          unfold mkGoofspielGame parsePointsOrder parseReturnsType
          simp [hr, hd, ha, h1, h2, h3]
        · refine ⟨"Unrecognized points_order parameter: " ++ p.pointsOrder, ?_, Or.inl rfl⟩
          unfold mkGoofspielGame parsePointsOrder
          simp [hr, hd, ha]

/-- C9 witness: the error is produced at the concrete input
`points_order = "foo"`. -/
theorem mkGoofspielGame_rejects_bad_enums_witness :
    ∃ msg,
      mkGoofspielGame ⟨4, 2, "foo", "win_loss", false⟩ = Except.error msg ∧
      (msg = "Unrecognized points_order parameter: " ++ "foo" ∨
       msg = "Unrecognized returns_type parameter: " ++ "win_loss") :=
  mkGoofspielGame_rejects_bad_enums ⟨4, 2, "foo", "win_loss", false⟩
    (Or.inl (by refine ⟨?_, ?_, ?_⟩ <;> decide))

/-! ## C6: min/max utility under point-difference -/

/-- C6 counterexample: with `N = 3`, `P = 4` (point-difference), the
claimed exact rational `-(N (N+1) / 2) / P = -3/2` differs from
`MinUtility()`, which the code computes with truncating integer
division as `-(6 / 4) = -1`. -/
theorem minUtility_counterexample :
    minUtility
        { numCards := 3, numPlayers := 4,
          pointsOrder := PointsOrder.random,
          returnsType := ReturnsType.pointDifference, impinfo := false } ≠
      -(((3 : ℚ) * ((3 : ℚ) + 1) / 2) / (4 : ℚ)) := by
  unfold minUtility triangle
  norm_num

/-- C6 amended: under the point-difference policy, `MinUtility()` is the
negated FLOOR of the rational `(N (N+1) / 2) / P` (C++ integer
division), while `MaxUtility()` is exactly the rational
`(P - 1) (N (N+1) / 2) / P`; both are closed-form in `N` and `P`. -/
theorem minUtility_maxUtility_pointDifference (g : GoofspielGame)
    (hrt : g.returnsType = ReturnsType.pointDifference)
    (hP : 1 ≤ g.numPlayers) :
    minUtility g =
      -((⌊((g.numCards : ℚ) * ((g.numCards : ℚ) + 1) / 2) /
            (g.numPlayers : ℚ)⌋₊ : Nat) : ℚ) ∧
    maxUtility g =
      ((g.numPlayers : ℚ) - 1) *
        ((g.numCards : ℚ) * ((g.numCards : ℚ) + 1) / 2) /
          (g.numPlayers : ℚ) := by
  constructor
  · unfold minUtility
    rw [hrt]
    rw [← triangle_cast_q, Nat.floor_div_eq_div]
  · unfold maxUtility
    rw [hrt]
    rw [← triangle_cast_q, Nat.cast_sub hP, Nat.cast_one]

/-- C6 amended witness: evaluated at `N = 3`, `P = 4`. -/
theorem minUtility_maxUtility_pointDifference_witness :
    minUtility
        { numCards := 3, numPlayers := 4,
          pointsOrder := PointsOrder.random,
          returnsType := ReturnsType.pointDifference, impinfo := false } =
      -((⌊(((3 : Nat) : ℚ) * (((3 : Nat) : ℚ) + 1) / 2) /
            (((4 : Nat)) : ℚ)⌋₊ : Nat) : ℚ) ∧
    maxUtility
        { numCards := 3, numPlayers := 4,
          pointsOrder := PointsOrder.random,
          returnsType := ReturnsType.pointDifference, impinfo := false } =
      ((((4 : Nat)) : ℚ) - 1) *
        (((3 : Nat) : ℚ) * (((3 : Nat) : ℚ) + 1) / 2) / (((4 : Nat)) : ℚ) :=
  minUtility_maxUtility_pointDifference
    { numCards := 3, numPlayers := 4,
      pointsOrder := PointsOrder.random,
      returnsType := ReturnsType.pointDifference, impinfo := false }
    rfl (by decide)

/-! ## C8: observer noninterference under imperfect information -/

lemma getD_set_ne {α : Type} (l : List α) (i j : Nat) (a : α) (b : α)
    (h : i ≠ j) : (l.set i a).getD j b = l.getD j b := by
  simp [List.getD_eq_getElem?_getD, List.getElem?_set_ne h]

/-- C8: in an imperfect-information game, with the observer's private
scope restricted to the requesting player, altering another player's
hidden hand (everything visible to player `A` held fixed) changes
neither the tensor encoding nor the string encoding for `A` — for every
choice of the public-info and perfect-recall flags. -/
theorem observer_noninterference (s : GoofspielState) (A B : Nat)
    (h' : List Bool) (obs : IIGObsType) (hImp : s.impinfo = true)
    (hPriv : obs.privateInfo = PrivateInfoType.singlePlayer)
    (hA : A < s.numPlayers) (hBA : B ≠ A) :
    writeTensor { s with playerHands := s.playerHands.set B h' } A obs =
      writeTensor s A obs ∧
    stringFrom { s with playerHands := s.playerHands.set B h' } A obs =
      stringFrom s A obs := by
  have hset : (s.playerHands.set B h')[A]? = s.playerHands[A]? :=
    List.getElem?_set_ne hBA
  constructor
  · unfold writeTensor
    simp [hImp, hset, maxPointSlots, numRounds, rotPlayer]
  · unfold stringFrom
    simp [hImp, hset, currentPointValue]

/-- C8 witness: a concrete two-player imperfect-information state with
player 1's hand replaced, observed by player 0. -/
theorem observer_noninterference_witness :
    writeTensor
        { initialState ⟨2, 2, PointsOrder.random, ReturnsType.winLoss, true⟩ with
            playerHands :=
              (initialState
                ⟨2, 2, PointsOrder.random, ReturnsType.winLoss, true⟩).playerHands.set
                1 [false, true] } 0
        ⟨true, true, PrivateInfoType.singlePlayer⟩ =
      writeTensor
        (initialState ⟨2, 2, PointsOrder.random, ReturnsType.winLoss, true⟩) 0
        ⟨true, true, PrivateInfoType.singlePlayer⟩ ∧
    stringFrom
        { initialState ⟨2, 2, PointsOrder.random, ReturnsType.winLoss, true⟩ with
            playerHands :=
              (initialState
                ⟨2, 2, PointsOrder.random, ReturnsType.winLoss, true⟩).playerHands.set
                1 [false, true] } 0
        ⟨true, true, PrivateInfoType.singlePlayer⟩ =
      stringFrom
        (initialState ⟨2, 2, PointsOrder.random, ReturnsType.winLoss, true⟩) 0
        ⟨true, true, PrivateInfoType.singlePlayer⟩ :=
  observer_noninterference
    (initialState ⟨2, 2, PointsOrder.random, ReturnsType.winLoss, true⟩)
    0 1 [false, true] ⟨true, true, PrivateInfoType.singlePlayer⟩
    rfl rfl (by decide) (by decide)

/-! ## C1: round resolution -/

/-- Spec-side maximum of a bid list. -/
def maxNat (l : List Nat) : Nat := l.foldr max 0

/-- The running maximum the C++ scan computes, over `Int` with initial
value `-1`. -/
def natMaxInt (l : List Nat) : Int :=
  l.foldr (fun a acc => max (a : Int) acc) (-1)

/-- Occurrences of the integer `v` in a bid list. -/
def countI (l : List Nat) (v : Int) : Nat :=
  l.countP (fun (a : Nat) => decide ((a : Int) = v))

/-- Index of the first occurrence of the integer `v` in a bid list. -/
def idxI (l : List Nat) (v : Int) : Nat :=
  l.findIdx (fun (a : Nat) => decide ((a : Int) = v))

lemma natMaxInt_cons (a : Nat) (l : List Nat) :
    natMaxInt (a :: l) = max (a : Int) (natMaxInt l) := rfl

lemma countI_cons (a : Nat) (l : List Nat) (v : Int) :
    countI (a :: l) v = countI l v + if (a : Int) = v then 1 else 0 := by
  simp only [countI, List.countP_cons]
  by_cases h : (a : Int) = v
  · rw [if_pos h, decide_eq_true h]
    simp
  · rw [if_neg h, decide_eq_false h]
    simp

lemma idxI_cons (a : Nat) (l : List Nat) (v : Int) :
    idxI (a :: l) v = if (a : Int) = v then 0 else idxI l v + 1 := by
  unfold idxI
  rw [List.findIdx_cons]
  by_cases h : (a : Int) = v
  · rw [if_pos h, decide_eq_true h]
    rfl
  · rw [if_neg h, decide_eq_false h]
    rfl

/-- Full characterisation of the C++ max-bid scan: starting from a
running maximum `m ≥ -1`, the scan returns the overall maximum together
with its multiplicity and the position of its first occurrence, or, if
nothing exceeds `m`, extends the accumulated count by the occurrences
of `m` itself. -/
lemma bidScan_spec (rest : List Nat) :
    ∀ (p : Nat) (m : Int) (cnt : Nat) (b : Int), -1 ≤ m →
    bidScan p m cnt b rest =
      if natMaxInt rest > m then
        (natMaxInt rest, countI rest (natMaxInt rest),
          ((p + idxI rest (natMaxInt rest) : Nat) : Int))
      else (m, cnt + countI rest m, b) := by
  induction rest with
  | nil =>
    intro p m cnt b hm
    have hng : ¬ natMaxInt [] > m := not_lt.mpr hm
    simp [bidScan, hng, countI]
  | cons a rest ih =>
    intro p m cnt b hm
    have ha0 : (0 : Int) ≤ (a : Int) := Int.ofNat_nonneg a
    by_cases h1 : (a : Int) > m
    · rw [show bidScan p m cnt b (a :: rest) = bidScan (p + 1) (a : Int) 1 (p : Int) rest by
        simp [bidScan, h1]]
      rw [ih (p + 1) (a : Int) 1 (p : Int) (by linarith)]
      by_cases h2 : natMaxInt rest > (a : Int)
      · have hane : ¬ ((a : Int) = natMaxInt rest) := ne_of_lt h2
        rw [if_pos h2, natMaxInt_cons, max_eq_right (le_of_lt h2),
            if_pos (lt_trans h1 h2), countI_cons, idxI_cons,
            if_neg hane, if_neg hane, add_zero,
            show p + 1 + idxI rest (natMaxInt rest)
                = p + (idxI rest (natMaxInt rest) + 1) from by omega]
      · rw [if_neg h2, natMaxInt_cons, max_eq_left (not_lt.mp h2), if_pos h1,
            countI_cons, idxI_cons, if_pos rfl, if_pos rfl, add_zero,
            Nat.add_comm 1 (countI rest (a : Int))]
    · by_cases h2 : (a : Int) = m
      · rw [show bidScan p m cnt b (a :: rest) = bidScan (p + 1) m (cnt + 1) b rest by
          simp [bidScan, h1, h2]]
        rw [ih (p + 1) m (cnt + 1) b hm]
        by_cases h3 : natMaxInt rest > m
        · have hane : ¬ ((a : Int) = natMaxInt rest) := by
            rw [h2]
            exact ne_of_lt h3
          rw [if_pos h3, natMaxInt_cons, h2, max_eq_right (le_of_lt h3),
              if_pos h3, countI_cons, idxI_cons, if_neg hane, if_neg hane, add_zero,
              show p + 1 + idxI rest (natMaxInt rest)
                  = p + (idxI rest (natMaxInt rest) + 1) from by omega]
        · rw [if_neg h3, natMaxInt_cons, h2, max_eq_left (not_lt.mp h3),
              if_neg (lt_irrefl m), countI_cons, h2, if_pos rfl,
              show cnt + 1 + countI rest m = cnt + (countI rest m + 1) from by omega]
      · have h4 : (a : Int) < m := lt_of_le_of_ne (not_lt.mp h1) h2
        rw [show bidScan p m cnt b (a :: rest) = bidScan (p + 1) m cnt b rest by
          simp [bidScan, h1, h2]]
        rw [ih (p + 1) m cnt b hm]
        by_cases h3 : natMaxInt rest > m
        · have hane : ¬ ((a : Int) = natMaxInt rest) := ne_of_lt (lt_trans h4 h3)
          rw [if_pos h3, natMaxInt_cons, max_eq_right (le_of_lt (lt_trans h4 h3)),
              if_pos h3, countI_cons, idxI_cons, if_neg hane, if_neg hane, add_zero,
              show p + 1 + idxI rest (natMaxInt rest)
                  = p + (idxI rest (natMaxInt rest) + 1) from by omega]
        · have hng : ¬ max (a : Int) (natMaxInt rest) > m :=
            not_lt.mpr (max_le (le_of_lt h4) (not_lt.mp h3))
          rw [if_neg h3, natMaxInt_cons, if_neg hng, countI_cons, if_neg h2, add_zero]

lemma natMaxInt_eq (l : List Nat) (h : l ≠ []) :
    natMaxInt l = ((maxNat l : Nat) : Int) := by
  induction l with
  | nil => exact absurd rfl h
  | cons a t ih =>
    cases t with
    | nil =>
      show max ((a : Nat) : Int) (-1) = ((max a 0 : Nat) : Int)
      rw [Nat.max_zero]
      exact max_eq_left (le_trans (by norm_num) (Int.ofNat_nonneg a))
    | cons b t2 =>
      rw [natMaxInt_cons, ih (by simp)]
      show max ((a : Nat) : Int) _ = ((max a (maxNat (b :: t2)) : Nat) : ℤ)
      rw [Nat.cast_max]

lemma countI_natCast (l : List Nat) (v : Nat) :
    countI l ((v : Nat) : Int) = l.count v := by
  unfold countI List.count
  refine congrArg (fun p => l.countP p) ?_
  funext a
  by_cases h : a = v <;> simp [h]

lemma getD_range_map {α : Type} (n : Nat) (f : Nat → α) (q : Nat) (d : α)
    (h : q < n) : ((List.range n).map f).getD q d = f q := by
  rw [List.getD_eq_getElem _ _ (by simpa using h)]
  simp

lemma two_le_count_of_two_idx :
    ∀ (l : List Nat) (v i j : Nat), i < j → j < l.length →
      l.getD i 0 = v → l.getD j 0 = v → 2 ≤ l.count v := by
  intro l
  induction l with
  | nil =>
    intro v i j hij hj hvi hvj
    simp at hj
  | cons a t ih =>
    intro v i j hij hj hvi hvj
    rw [List.count_cons]
    cases i with
    | zero =>
      cases j with
      | zero => omega
      | succ j0 =>
        have hat : a = v := by simpa using hvi
        have hj0 : j0 < t.length := by simpa using hj
        have htj : t.getD j0 0 = v := by simpa using hvj
        have hmem : v ∈ t := by
          rw [List.getD_eq_getElem _ _ hj0] at htj
          exact htj ▸ List.getElem_mem hj0
        have h1 : 1 ≤ t.count v := List.count_pos_iff.mpr hmem
        rw [if_pos (by simp [hat])]
        omega
    | succ i0 =>
      cases j with
      | zero => omega
      | succ j0 =>
        have := ih v i0 j0 (by omega) (by simpa using hj)
          (by simpa using hvi) (by simpa using hvj)
        split <;> omega

/-- C1: round resolution at a simultaneous node, for any validated
joint action vector.  With `M` the maximum bid: if exactly one player
bids `M`, that player's points grow by the current point value and they
are appended to the round-winner history; otherwise no points change
and a no-winner entry is appended.  In both cases the joint action is
appended to the action history and each player's played card is cleared
from their hand. -/
theorem round_resolution (s : GoofspielState) (actions : List Nat)
    (hP : 1 ≤ s.numPlayers) (hval : ValidActions s actions) :
    (actions.count (maxNat actions) = 1 →
      ∃ w, w < s.numPlayers ∧ actions.getD w 0 = maxNat actions ∧
        (∀ q, q < s.numPlayers → q ≠ w →
          actions.getD q 0 ≠ maxNat actions) ∧
        (resolveRound s actions).points =
          s.points.set w (s.points.getD w 0 + currentPointValue s) ∧
        (resolveRound s actions).winSequence = s.winSequence ++ [some w]) ∧
    (actions.count (maxNat actions) ≠ 1 →
      (resolveRound s actions).points = s.points ∧
      (resolveRound s actions).winSequence = s.winSequence ++ [none]) ∧
    (resolveRound s actions).actionsHistory = s.actionsHistory ++ [actions] ∧
    (resolveRound s actions).playerHands.length = s.numPlayers ∧
    (∀ q, q < s.numPlayers →
      (resolveRound s actions).playerHands.getD q [] =
        (s.playerHands.getD q []).set (actions.getD q 0) false) := by
  obtain ⟨hlen, hvalp⟩ := hval
  have hne : actions ≠ [] := by
    intro h
    rw [h] at hlen
    simp at hlen
    omega
  have hM : natMaxInt actions = ((maxNat actions : Nat) : Int) :=
    natMaxInt_eq actions hne
  have hpos : natMaxInt actions > -1 := by
    rw [hM]
    exact lt_of_lt_of_le (by norm_num) (Int.ofNat_nonneg _)
  have hfold : bidFold actions =
      (((maxNat actions : Nat) : Int), actions.count (maxNat actions),
        ((idxI actions ((maxNat actions : Nat) : Int) : Nat) : Int)) := by
    unfold bidFold
    rw [bidScan_spec actions 0 (-1) 0 (-1) (le_refl _), if_pos hpos, hM,
        countI_natCast]
    simp
  have hwmem : actions.count (maxNat actions) = 1 →
      idxI actions ((maxNat actions : Nat) : Int) < actions.length := by
    intro hcount
    have hmem : maxNat actions ∈ actions := by
      have : 0 < actions.count (maxNat actions) := by omega
      exact List.count_pos_iff.mp this
    exact List.findIdx_lt_length_of_exists ⟨maxNat actions, hmem, by simp⟩
  have hgetw : ∀ h : idxI actions ((maxNat actions : Nat) : Int) < actions.length,
      actions.getD (idxI actions ((maxNat actions : Nat) : Int)) 0 = maxNat actions := by
    intro h
    rw [List.getD_eq_getElem _ _ h]
    have hp := List.findIdx_getElem (w := h)
    have hval := of_decide_eq_true hp
    exact Nat.cast_injective hval
  have hhands : (resolveRound s actions).playerHands =
      (List.range s.numPlayers).map
        (fun p => (s.playerHands.getD p []).set (actions.getD p 0) false) := by
    simp only [resolveRound, hfold]
    by_cases hcount : actions.count (maxNat actions) = 1 <;> simp [hcount]
  have hhist : (resolveRound s actions).actionsHistory =
      s.actionsHistory ++ [actions] := by
    simp only [resolveRound, hfold]
    by_cases hcount : actions.count (maxNat actions) = 1 <;> simp [hcount]
  refine ⟨?_, ?_, ?_, ?_, ?_⟩
  · intro hcount
    have hw := hwmem hcount
    refine ⟨idxI actions ((maxNat actions : Nat) : Int), ?_, hgetw hw, ?_, ?_, ?_⟩
    · rw [← hlen]
      exact hw
    · intro q hq hqw hqv
      have hq2 : q < actions.length := by
        rw [hlen]
        exact hq
      have h2 : 2 ≤ actions.count (maxNat actions) := by
        rcases lt_or_gt_of_ne hqw with hlt | hgt
        · exact two_le_count_of_two_idx actions (maxNat actions) q
            (idxI actions ((maxNat actions : Nat) : Int)) hlt hw hqv (hgetw hw)
        · exact two_le_count_of_two_idx actions (maxNat actions)
            (idxI actions ((maxNat actions : Nat) : Int)) q hgt hq2 (hgetw hw) hqv
      omega
    · simp only [resolveRound, hfold]
      simp [hcount]
    · simp only [resolveRound, hfold]
      simp [hcount]
  · intro hcount
    constructor
    · simp only [resolveRound, hfold]
      simp [hcount]
    · simp only [resolveRound, hfold]
      simp [hcount]
  · exact hhist
  · rw [hhands]
    simp
  · intro q hq
    rw [hhands, getD_range_map _ _ _ _ hq]

/-- The concrete state used by the round-resolution witness: the initial
ascending-order 3-card 2-player state (point card 0 revealed). -/
def c1State : GoofspielState :=
  initialState ⟨3, 2, PointsOrder.ascending, ReturnsType.winLoss, false⟩

/-- C1 witness: the resolution evaluated for bids `[1, 0]` at the
initial 3-card ascending state. -/
theorem round_resolution_witness :
    1 ≤ c1State.numPlayers ∧ ValidActions c1State [1, 0] ∧
    ((([1, 0] : List Nat).count (maxNat [1, 0]) = 1 →
      ∃ w, w < c1State.numPlayers ∧
        ([1, 0] : List Nat).getD w 0 = maxNat [1, 0] ∧
        (∀ q, q < c1State.numPlayers → q ≠ w →
          ([1, 0] : List Nat).getD q 0 ≠ maxNat [1, 0]) ∧
        (resolveRound c1State [1, 0]).points =
          c1State.points.set w
            (c1State.points.getD w 0 + currentPointValue c1State) ∧
        (resolveRound c1State [1, 0]).winSequence =
          c1State.winSequence ++ [some w]) ∧
    (([1, 0] : List Nat).count (maxNat [1, 0]) ≠ 1 →
      (resolveRound c1State [1, 0]).points = c1State.points ∧
      (resolveRound c1State [1, 0]).winSequence =
        c1State.winSequence ++ [none]) ∧
    (resolveRound c1State [1, 0]).actionsHistory =
      c1State.actionsHistory ++ [[1, 0]] ∧
    (resolveRound c1State [1, 0]).playerHands.length = c1State.numPlayers ∧
    (∀ q, q < c1State.numPlayers →
      (resolveRound c1State [1, 0]).playerHands.getD q [] =
        (c1State.playerHands.getD q []).set (([1, 0] : List Nat).getD q 0)
          false)) :=
  ⟨by decide, by decide, round_resolution c1State [1, 0] (by decide) (by decide)⟩

/-! ## C2, C5: returns characterisation -/

/-- The running maximum of the winner scan, base `-1`. -/
def intMaxI (l : List Int) : Int := l.foldr max (-1)

/-- Indices (offset by `k`) of the occurrences of `v` in `l`, in
increasing order. -/
def idcsFrom : Nat → List Int → Int → List Nat
  | _, [], _ => []
  | k, a :: t, v => (if a = v then [k] else []) ++ idcsFrom (k + 1) t v

lemma intMaxI_cons (a : Int) (l : List Int) :
    intMaxI (a :: l) = max a (intMaxI l) := rfl

lemma idcsFrom_cons (k : Nat) (a : Int) (t : List Int) (v : Int) :
    idcsFrom k (a :: t) v = (if a = v then [k] else []) ++ idcsFrom (k + 1) t v := rfl

/-- Full characterisation of the winner scan (lines 389-399): with a
running maximum `m ≥ -1` and nonnegative scores, it returns the overall
maximum together with the (offset) indices of all its occurrences, or
extends the accumulated winner set by the occurrences of `m`. -/
lemma winScan_spec (l : List Int) :
    ∀ (k : Nat) (m : Int) (ws : List Nat), -1 ≤ m → (∀ x ∈ l, 0 ≤ x) →
    winScan k m ws l =
      if intMaxI l > m then (intMaxI l, idcsFrom k l (intMaxI l))
      else (m, ws ++ idcsFrom k l m) := by
  induction l with
  | nil =>
    intro k m ws hm hnn
    have hng : ¬ intMaxI [] > m := not_lt.mpr hm
    simp [winScan, hng, idcsFrom]
  | cons a t ih =>
    intro k m ws hm hnn
    have ha0 : (0 : Int) ≤ a := hnn a (List.mem_cons_self a t)
    have hnt : ∀ x ∈ t, 0 ≤ x := fun x hx => hnn x (List.mem_cons_of_mem a hx)
    by_cases h1 : a > m
    · rw [show winScan k m ws (a :: t) = winScan (k + 1) a [k] t by
        simp [winScan, h1]]
      rw [ih (k + 1) a [k] (by linarith) hnt]
      by_cases h2 : intMaxI t > a
      · have hane : ¬ (a = intMaxI t) := ne_of_lt h2
        rw [if_pos h2, intMaxI_cons, max_eq_right (le_of_lt h2),
            if_pos (lt_trans h1 h2), idcsFrom_cons, if_neg hane]
        simp
      · rw [if_neg h2, intMaxI_cons, max_eq_left (not_lt.mp h2), if_pos h1,
            idcsFrom_cons, if_pos rfl]
    · by_cases h2 : a = m
      · rw [show winScan k m ws (a :: t) = winScan (k + 1) m (ws ++ [k]) t by
          simp [winScan, h1, h2]]
        rw [ih (k + 1) m (ws ++ [k]) hm hnt]
        by_cases h3 : intMaxI t > m
        · have hane : ¬ (a = intMaxI t) := by
            rw [h2]
            exact ne_of_lt h3
          have hmax : max a (intMaxI t) = intMaxI t := by
            rw [h2]
            exact max_eq_right (le_of_lt h3)
          rw [if_pos h3, intMaxI_cons, hmax, if_pos h3, idcsFrom_cons,
              if_neg hane]
          simp
        · have hmax : max a (intMaxI t) = m := by
            rw [h2]
            exact max_eq_left (not_lt.mp (h2 ▸ h3))
          rw [if_neg h3, intMaxI_cons, hmax, if_neg (lt_irrefl m),
              idcsFrom_cons, if_pos h2]
          simp
      · have h4 : a < m := lt_of_le_of_ne (not_lt.mp h1) h2
        rw [show winScan k m ws (a :: t) = winScan (k + 1) m ws t by
          simp [winScan, h1, h2]]
        rw [ih (k + 1) m ws hm hnt]
        by_cases h3 : intMaxI t > m
        · rw [if_pos h3, intMaxI_cons, max_eq_right (le_of_lt (lt_trans h4 h3)),
              if_pos h3, idcsFrom_cons, if_neg (ne_of_lt (lt_trans h4 h3))]
          simp
        · have hng : ¬ max a (intMaxI t) > m :=
            not_lt.mpr (max_le (le_of_lt h4) (not_lt.mp h3))
          rw [if_neg h3, intMaxI_cons, if_neg hng, idcsFrom_cons, if_neg h2]
          simp

lemma mem_idcsFrom (l : List Int) :
    ∀ (k : Nat) (v : Int) (i : Nat),
      i ∈ idcsFrom k l v ↔ ∃ j, j < l.length ∧ i = k + j ∧ l.getD j 0 = v := by
  induction l with
  | nil => simp [idcsFrom]
  | cons a t ih =>
    intro k v i
    rw [idcsFrom_cons, List.mem_append]
    constructor
    · intro h
      rcases h with h | h
      · by_cases hav : a = v
        · rw [if_pos hav] at h
          simp only [List.mem_singleton] at h
          exact ⟨0, by simp, by omega, by simpa using hav⟩
        · rw [if_neg hav] at h
          simp at h
      · obtain ⟨j, hj, hij, hv⟩ := (ih (k + 1) v i).mp h
        exact ⟨j + 1, by simpa using hj, by omega, by simpa using hv⟩
    · rintro ⟨j, hj, rfl, hv⟩
      cases j with
      | zero =>
        left
        rw [if_pos (by simpa using hv)]
        simp
      | succ j0 =>
        right
        refine (ih (k + 1) v (k + (j0 + 1))).mpr ⟨j0, by simpa using hj, by omega, by simpa using hv⟩

lemma idcsFrom_ge (l : List Int) (k : Nat) (v : Int) :
    ∀ i ∈ idcsFrom k l v, k ≤ i := by
  intro i hi
  obtain ⟨j, _, rfl, _⟩ := (mem_idcsFrom l k v i).mp hi
  omega

lemma idcsFrom_nodup (l : List Int) : ∀ (k : Nat) (v : Int),
    (idcsFrom k l v).Nodup := by
  induction l with
  | nil => intro k v; simp [idcsFrom]
  | cons a t ih =>
    intro k v
    rw [idcsFrom_cons]
    by_cases hav : a = v
    · rw [if_pos hav]
      rw [List.singleton_append, List.nodup_cons]
      refine ⟨fun hk => ?_, ih (k + 1) v⟩
      have := idcsFrom_ge t (k + 1) v k hk
      omega
    · rw [if_neg hav, List.nil_append]
      exact ih (k + 1) v

lemma idcsFrom_length (l : List Int) : ∀ (k : Nat) (v : Int),
    (idcsFrom k l v).length = l.countP (fun x => decide (x = v)) := by
  induction l with
  | nil => intro k v; simp [idcsFrom]
  | cons a t ih =>
    intro k v
    rw [idcsFrom_cons, List.length_append, ih (k + 1) v, List.countP_cons]
    by_cases hav : a = v
    · rw [if_pos hav, decide_eq_true hav]
      simp [Nat.add_comm]
    · rw [if_neg hav, decide_eq_false hav]
      simp

lemma le_intMaxI (l : List Int) : ∀ x ∈ l, x ≤ intMaxI l := by
  induction l with
  | nil => simp
  | cons a t ih =>
    intro x hx
    rw [intMaxI_cons]
    rcases List.mem_cons.mp hx with rfl | hx
    · exact le_max_left _ _
    · exact le_trans (ih x hx) (le_max_right _ _)

lemma intMaxI_mem (l : List Int) (hne : l ≠ []) (hnn : ∀ x ∈ l, 0 ≤ x) :
    intMaxI l ∈ l := by
  induction l with
  | nil => exact absurd rfl hne
  | cons a t ih =>
    cases t with
    | nil =>
      have : intMaxI [a] = a :=
        max_eq_left (le_trans (by norm_num) (hnn a (List.mem_cons_self a [])))
      rw [this]
      exact List.mem_cons_self a []
    | cons b t2 =>
      rw [intMaxI_cons]
      rcases max_cases a (intMaxI (b :: t2)) with ⟨heq, _⟩ | ⟨heq, _⟩
      · rw [heq]
        exact List.mem_cons_self a (b :: t2)
      · rw [heq]
        exact List.mem_cons_of_mem a
          (ih (by simp) (fun x hx => hnn x (List.mem_cons_of_mem a hx)))

/-- On a nonempty nonnegative point vector the winner scan computes
exactly the increasing list of indices achieving the maximum score. -/
lemma winnersOf_eq (points : List Int) (hne : points ≠ [])
    (hnn : ∀ x ∈ points, 0 ≤ x) :
    winnersOf points = idcsFrom 0 points (intMaxI points) := by
  have hpos : intMaxI points > -1 :=
    lt_of_lt_of_le (by norm_num) (hnn _ (intMaxI_mem points hne hnn))
  unfold winnersOf
  rw [winScan_spec points 0 (-1) [] (le_refl _) hnn, if_pos hpos]

lemma foldl_set_length (x : ℚ) :
    ∀ (ws : List Nat) (acc : List ℚ),
      (ws.foldl (fun a w => a.set w x) acc).length = acc.length := by
  intro ws
  induction ws with
  | nil => intro acc; rfl
  | cons w ws ih =>
    intro acc
    rw [List.foldl_cons, ih (acc.set w x), List.length_set]

lemma getD_set_self (l : List ℚ) (i : Nat) (a : ℚ) (h : i < l.length) :
    (l.set i a).getD i 0 = a := by
  rw [List.getD_eq_getElem?_getD, List.getElem?_set_self', List.getElem?_eq_getElem h]
  rfl

lemma foldl_set_getD (x : ℚ) :
    ∀ (ws : List Nat) (acc : List ℚ) (q : Nat), q < acc.length →
      (ws.foldl (fun a w => a.set w x) acc).getD q 0 =
        if q ∈ ws then x else acc.getD q 0 := by
  intro ws
  induction ws with
  | nil => intro acc q hq; simp
  | cons w ws ih =>
    intro acc q hq
    rw [List.foldl_cons, ih (acc.set w x) q (by rw [List.length_set]; exact hq)]
    by_cases hqws : q ∈ ws
    · rw [if_pos hqws, if_pos (List.mem_cons_of_mem w hqws)]
    · rw [if_neg hqws]
      by_cases hqw : q = w
      · rw [hqw, if_pos (List.mem_cons_self w ws)]
        exact getD_set_self acc w x (hqw ▸ hq)
      · rw [if_neg (by simp [hqw, hqws]), getD_set_ne]
        exact fun h => hqw h.symm

lemma foldl_set_sum (x y : ℚ) :
    ∀ (ws : List Nat) (acc : List ℚ), ws.Nodup →
      (∀ w ∈ ws, w < acc.length) → (∀ w ∈ ws, acc.getD w 0 = y) →
      (ws.foldl (fun a w => a.set w x) acc).sum
        = acc.sum + (ws.length : ℚ) * (x - y) := by
  intro ws
  induction ws with
  | nil => intro acc _ _ _; simp
  | cons w ws ih =>
    intro acc hnd hlt hy
    have hw : w < acc.length := hlt w (List.mem_cons_self w ws)
    have hwy : acc.getD w 0 = y := hy w (List.mem_cons_self w ws)
    have hwget : acc[w] = y := by
      rw [List.getD_eq_getElem _ _ hw] at hwy
      exact hwy
    have hnotmem : w ∉ ws := (List.nodup_cons.mp hnd).1
    have hsum : (acc.set w x).sum = acc.sum + (x - y) := by
      rw [List.sum_set', dif_pos hw, hwget]
      ring
    rw [List.foldl_cons,
        ih (acc.set w x) (List.nodup_cons.mp hnd).2
          (fun w2 hw2 => by
            rw [List.length_set]
            exact hlt w2 (List.mem_cons_of_mem w hw2))
          (fun w2 hw2 => by
            rw [getD_set_ne _ _ _ _ _ (fun h => hnotmem (by rw [h]; exact hw2))]
            exact hy w2 (List.mem_cons_of_mem w hw2)),
        hsum]
    simp only [List.length_cons]
    push_cast
    ring

lemma getD_replicate (n : Nat) (c : ℚ) (q : Nat) (h : q < n) :
    (List.replicate n c).getD q 0 = c := by
  rw [List.getD_eq_getElem _ _ (by simpa using h)]
  simp

lemma foldl_add_cast (l : List Int) :
    ∀ init : ℚ, l.foldl (fun (acc : ℚ) (x : Int) => acc + (x : ℚ)) init
      = init + (l.map (fun (x : Int) => (x : ℚ))).sum := by
  induction l with
  | nil => intro init; simp
  | cons a t ih =>
    intro init
    rw [List.foldl_cons, ih (init + (a : ℚ))]
    simp [add_assoc]

lemma sum_map_sub_const (l : List Int) (c : ℚ) :
    (l.map (fun (x : Int) => (x : ℚ) - c)).sum
      = (l.map (fun (x : Int) => (x : ℚ))).sum - (l.length : ℚ) * c := by
  induction l with
  | nil => simp
  | cons a t ih =>
    simp only [List.map_cons, List.sum_cons, ih, List.length_cons]
    push_cast
    ring

/-- C2: at a terminal state under the win-loss policy, with the winner
set `W` computed by the engine (exactly the players holding the maximum
final score, first conjunct): if `|W| = P` the returns are all zero;
otherwise every winner receives exactly `1/|W|` and every non-winner
exactly `-1/(P-|W|)`. -/
theorem winLoss_returns (s : GoofspielState)
    (hterm : s.turns = s.numCards)
    (hrt : s.returnsType = ReturnsType.winLoss)
    (hlen : s.points.length = s.numPlayers)
    (hP : 1 ≤ s.numPlayers)
    (hnn : ∀ x ∈ s.points, 0 ≤ x)
    (hw : s.winners = winnersOf s.points) :
    (∀ q, q < s.numPlayers →
      (q ∈ s.winners ↔ s.points.getD q 0 = intMaxI s.points)) ∧
    (∀ x ∈ s.points, x ≤ intMaxI s.points) ∧
    (s.winners.length = s.numPlayers →
      returnsVec s = List.replicate s.numPlayers (0 : ℚ)) ∧
    (s.winners.length ≠ s.numPlayers →
      (returnsVec s).length = s.numPlayers ∧
      ∀ q, q < s.numPlayers →
        (returnsVec s).getD q 0 =
          if q ∈ s.winners then (1 : ℚ) / (s.winners.length : ℚ)
          else -(1 : ℚ) / ((s.numPlayers - s.winners.length : Nat) : ℚ)) := by
  have hne : s.points ≠ [] := by
    intro h
    rw [h] at hlen
    simp at hlen
    omega
  have hwe : s.winners = idcsFrom 0 s.points (intMaxI s.points) := by
    rw [hw, winnersOf_eq s.points hne hnn]
  have hmem : ∀ q, q ∈ s.winners ↔
      q < s.points.length ∧ s.points.getD q 0 = intMaxI s.points := by
    intro q
    rw [hwe, mem_idcsFrom]
    constructor
    · rintro ⟨j, hj, rfl, hv⟩
      exact ⟨by omega, by simpa using hv⟩
    · rintro ⟨hq, hv⟩
      exact ⟨q, hq, by omega, hv⟩
  have hrv : s.winners.length ≠ s.numPlayers → returnsVec s =
      s.winners.foldl
        (fun acc w => acc.set w ((1 : ℚ) / (s.winners.length : ℚ)))
        (List.replicate s.numPlayers
          (-(1 : ℚ) / ((s.numPlayers - s.winners.length : Nat) : ℚ))) := by
    intro hne2
    unfold returnsVec
    rw [if_neg (by simp [hterm]), hrt]
    rw [if_neg hne2]
  refine ⟨?_, ?_, ?_, ?_⟩
  · intro q hq
    rw [hmem q]
    rw [hlen]
    simp [hq]
  · exact le_intMaxI s.points
  · intro hall
    unfold returnsVec
    rw [if_neg (by simp [hterm]), hrt]
    rw [if_pos hall]
  · intro hne2
    rw [hrv hne2]
    constructor
    · rw [foldl_set_length, List.length_replicate]
    · intro q hq
      rw [foldl_set_getD _ s.winners _ q (by rw [List.length_replicate]; exact hq)]
      by_cases hqw : q ∈ s.winners
      · rw [if_pos hqw, if_pos hqw]
      · rw [if_neg hqw, if_neg hqw, getD_replicate _ _ _ hq]

/-- C5: `Returns()` is the zero vector at every non-terminal state; at
terminal states it sums to exactly 0 (in exact rational arithmetic)
under the win-loss and point-difference policies, and equals the final
point totals exactly under the total-points policy. -/
theorem returns_policy_properties (s : GoofspielState)
    (hlen : s.points.length = s.numPlayers)
    (hP : 1 ≤ s.numPlayers)
    (hnn : ∀ x ∈ s.points, 0 ≤ x)
    (hw : s.turns = s.numCards → s.winners = winnersOf s.points) :
    (s.turns ≠ s.numCards → returnsVec s = List.replicate s.numPlayers (0 : ℚ)) ∧
    (s.turns = s.numCards → s.returnsType = ReturnsType.winLoss →
      (returnsVec s).sum = 0) ∧
    (s.turns = s.numCards → s.returnsType = ReturnsType.pointDifference →
      (returnsVec s).sum = 0) ∧
    (s.turns = s.numCards → s.returnsType = ReturnsType.totalPoints →
      returnsVec s = s.points.map (fun (x : Int) => (x : ℚ))) := by
  have hne : s.points ≠ [] := by
    intro h
    rw [h] at hlen
    simp at hlen
    omega
  refine ⟨?_, ?_, ?_, ?_⟩
  · intro hnt
    unfold returnsVec
    rw [if_pos hnt]
  · intro hterm hrt
    have hwe : s.winners = idcsFrom 0 s.points (intMaxI s.points) := by
      rw [hw hterm, winnersOf_eq s.points hne hnn]
    by_cases hall : s.winners.length = s.numPlayers
    · have : returnsVec s = List.replicate s.numPlayers (0 : ℚ) := by
        unfold returnsVec
        rw [if_neg (by simp [hterm]), hrt, if_pos hall]
      rw [this, List.sum_replicate]
      simp
    · have hrv : returnsVec s =
          s.winners.foldl
            (fun acc w => acc.set w ((1 : ℚ) / (s.winners.length : ℚ)))
            (List.replicate s.numPlayers
              (-(1 : ℚ) / ((s.numPlayers - s.winners.length : Nat) : ℚ))) := by
        unfold returnsVec
        rw [if_neg (by simp [hterm]), hrt, if_neg hall]
      have hnd : s.winners.Nodup := by
        rw [hwe]
        exact idcsFrom_nodup s.points 0 (intMaxI s.points)
      have hbound : ∀ w ∈ s.winners, w < s.numPlayers := by
        intro w hwm
        obtain ⟨j, hj, rfl, _⟩ := (mem_idcsFrom s.points 0 _ w).mp (hwe ▸ hwm)
        omega
      have hnw1 : 1 ≤ s.winners.length := by
        have hMmem : intMaxI s.points ∈ s.points := intMaxI_mem s.points hne hnn
        obtain ⟨j, hjl, hjv⟩ := List.getElem_of_mem hMmem
        have : j ∈ s.winners := by
          rw [hwe, mem_idcsFrom]
          exact ⟨j, hjl, by omega, by rw [List.getD_eq_getElem _ _ hjl]; exact hjv⟩
        have := List.length_pos.mpr (List.ne_nil_of_mem this)
        omega
      have hnwP : s.winners.length ≤ s.numPlayers := by
        rw [hwe, idcsFrom_length, ← hlen]
        exact List.countP_le_length _
      have hnwlt : s.winners.length < s.numPlayers := lt_of_le_of_ne hnwP hall
      rw [hrv, foldl_set_sum _ _ s.winners
            (List.replicate s.numPlayers
              (-(1 : ℚ) / ((s.numPlayers - s.winners.length : Nat) : ℚ)))
            hnd
            (fun w hwm => by
              rw [List.length_replicate]
              exact hbound w hwm)
            (fun w hwm => getD_replicate _ _ _ (hbound w hwm)),
          List.sum_replicate]
      have hcast : ((s.numPlayers - s.winners.length : Nat) : ℚ)
          = (s.numPlayers : ℚ) - (s.winners.length : ℚ) :=
        Nat.cast_sub (le_of_lt hnwlt)
      rw [hcast]
      have hA : ((s.winners.length : Nat) : ℚ) ≠ 0 := by
        have : (0 : ℚ) < (s.winners.length : ℚ) := by exact_mod_cast hnw1
        exact ne_of_gt this
      have hB : (s.numPlayers : ℚ) - (s.winners.length : ℚ) ≠ 0 := by
        have : (s.winners.length : ℚ) < (s.numPlayers : ℚ) := by exact_mod_cast hnwlt
        intro h
        apply absurd this
        simp
        linarith
      rw [nsmul_eq_mul]
      field_simp
      ring
  · intro hterm hrt
    have hrv : returnsVec s = s.points.map
        (fun (x : Int) => (x : ℚ) -
          (s.points.foldl (fun (acc : ℚ) (x : Int) => acc + (x : ℚ)) 0) /
            (s.numPlayers : ℚ)) := by
      unfold returnsVec
      rw [if_neg (by simp [hterm]), hrt]
    rw [hrv, sum_map_sub_const, foldl_add_cast, zero_add, hlen]
    have hPne : (s.numPlayers : ℚ) ≠ 0 := by
      have : (0 : ℚ) < (s.numPlayers : ℚ) := by exact_mod_cast hP
      exact ne_of_gt this
    field_simp
  · intro hterm hrt
    unfold returnsVec
    rw [if_neg (by simp [hterm]), hrt]

/-- The concrete terminal state used by the returns witnesses: 3-card
ascending 2-player win-loss play with bids `[1,0]` then `[0,2]` (the
final round is auto-played), giving points `[4, 2]` and winners `[0]`. -/
def c2State : GoofspielState :=
  doApplyActions
    (doApplyActions
      (initialState ⟨3, 2, PointsOrder.ascending, ReturnsType.winLoss, false⟩)
      [1, 0])
    [0, 2]

/-- C2 witness: the win-loss returns evaluated at the concrete terminal
state `c2State`. -/
theorem winLoss_returns_witness :
    (∀ q, q < c2State.numPlayers →
      (q ∈ c2State.winners ↔
        c2State.points.getD q 0 = intMaxI c2State.points)) ∧
    (∀ x ∈ c2State.points, x ≤ intMaxI c2State.points) ∧
    (c2State.winners.length = c2State.numPlayers →
      returnsVec c2State = List.replicate c2State.numPlayers (0 : ℚ)) ∧
    (c2State.winners.length ≠ c2State.numPlayers →
      (returnsVec c2State).length = c2State.numPlayers ∧
      ∀ q, q < c2State.numPlayers →
        (returnsVec c2State).getD q 0 =
          if q ∈ c2State.winners
          then (1 : ℚ) / (c2State.winners.length : ℚ)
          else -(1 : ℚ) /
            ((c2State.numPlayers - c2State.winners.length : Nat) : ℚ)) :=
  winLoss_returns c2State (by decide) (by decide) (by decide) (by decide)
    (by decide) (by decide)

/-- The concrete NON-terminal reachable state used by the C5 witness:
one round into the 3-card ascending win-loss game (turns 1, points
`[1, 0]`, winners still empty). -/
def c5State : GoofspielState :=
  doApplyActions
    (initialState ⟨3, 2, PointsOrder.ascending, ReturnsType.winLoss, false⟩)
    [1, 0]

/-- C5 witness: the returns policy properties evaluated both at the
non-terminal state `c5State` (whose `Returns()` is the zero vector) and
at the terminal state `c2State` (whose returns sum to zero). -/
theorem returns_policy_properties_witness :
    ((c5State.turns ≠ c5State.numCards →
      returnsVec c5State = List.replicate c5State.numPlayers (0 : ℚ)) ∧
    (c5State.turns = c5State.numCards →
      c5State.returnsType = ReturnsType.winLoss →
      (returnsVec c5State).sum = 0) ∧
    (c5State.turns = c5State.numCards →
      c5State.returnsType = ReturnsType.pointDifference →
      (returnsVec c5State).sum = 0) ∧
    (c5State.turns = c5State.numCards →
      c5State.returnsType = ReturnsType.totalPoints →
      returnsVec c5State = c5State.points.map (fun (x : Int) => (x : ℚ)))) ∧
    ((c2State.turns ≠ c2State.numCards →
      returnsVec c2State = List.replicate c2State.numPlayers (0 : ℚ)) ∧
    (c2State.turns = c2State.numCards →
      c2State.returnsType = ReturnsType.winLoss →
      (returnsVec c2State).sum = 0) ∧
    (c2State.turns = c2State.numCards →
      c2State.returnsType = ReturnsType.pointDifference →
      (returnsVec c2State).sum = 0) ∧
    (c2State.turns = c2State.numCards →
      c2State.returnsType = ReturnsType.totalPoints →
      returnsVec c2State = c2State.points.map (fun (x : Int) => (x : ℚ)))) :=
  ⟨returns_policy_properties c5State (by decide) (by decide) (by decide)
    (by decide),
   returns_policy_properties c2State (by decide) (by decide) (by decide)
    (by decide)⟩

/-! ## Well-formedness invariant machinery (C3, C4, C7, C10) -/

lemma count_true_set_false :
    ∀ (h : List Bool) (i : Nat), i < h.length → h.getD i false = true →
      (h.set i false).count true + 1 = h.count true := by
  intro h
  induction h with
  | nil => intro i hi _; simp at hi
  | cons b t ih =>
    intro i hi hv
    cases i with
    | zero =>
      have hb : b = true := by simpa using hv
      rw [hb]
      simp [List.count_cons]
    | succ i0 =>
      have hi0 : i0 < t.length := by simpa using hi
      have hv0 : t.getD i0 false = true := by simpa using hv
      have := ih i0 hi0 hv0
      rw [show (b :: t).set (i0 + 1) false = b :: t.set i0 false from rfl]
      simp only [List.count_cons]
      omega

lemma filter_range_getD (h : List Bool) :
    ((List.range h.length).filter (fun bid => h.getD bid false)).length
      = h.count true := by
  induction h with
  | nil => simp
  | cons b t ih =>
    rw [List.length_cons, List.range_succ_eq_map, List.filter_cons]
    have hcomp : ((fun bid => (b :: t).getD bid false) ∘ Nat.succ)
        = (fun bid => t.getD bid false) := by
      funext bid
      rfl
    rw [List.filter_map, hcomp]
    cases b with
    | true =>
      rw [List.count_cons]
      simp only [List.getD_cons_zero, if_pos, List.length_cons, List.length_map, ih]
      simp
    | false =>
      rw [List.count_cons]
      simp only [List.getD_cons_zero]
      rw [if_neg (by simp)]
      simp only [List.length_map, ih]
      simp

lemma legalActionsOf_length (s : GoofspielState) (p : Nat) :
    (legalActionsOf s p).length = (s.playerHands.getD p []).count true := by
  unfold legalActionsOf
  exact filter_range_getD (s.playerHands.getD p [])

lemma mem_legalActionsOf (s : GoofspielState) (p : Nat) (bid : Nat) :
    bid ∈ legalActionsOf s p ↔
      bid < (s.playerHands.getD p []).length ∧
      (s.playerHands.getD p []).getD bid false = true := by
  unfold legalActionsOf
  simp [List.mem_filter]

lemma eq_singleton_of_length_one {α : Type} (l : List α) (d : α)
    (h : l.length = 1) : l = [l.getD 0 d] := by
  match l, h with
  | [a], _ => rfl

lemma decide_not_mem_cons (a i : Nat) (t : List Nat) :
    decide (i ∉ a :: t) = (decide (i ≠ a) && decide (i ∉ t)) := by
  by_cases h1 : i = a
  · simp [h1]
  · by_cases h2 : i ∈ t <;> simp [h1, h2]

lemma length_filter_not_mem (n : Nat) :
    ∀ (l : List Nat), l.Nodup → (∀ c ∈ l, c < n) →
    ((List.range n).filter (fun i => decide (i ∉ l))).length = n - l.length := by
  intro l
  induction l with
  | nil => intro _ _; simp
  | cons a t ih =>
    intro hnd hlt
    have hand : t.Nodup := (List.nodup_cons.mp hnd).2
    have hanotin : a ∉ t := (List.nodup_cons.mp hnd).1
    have hltt : ∀ c ∈ t, c < n := fun c hc => hlt c (List.mem_cons_of_mem a hc)
    have hsplit : (List.range n).filter (fun i => decide (i ∉ a :: t))
        = ((List.range n).filter (fun i => decide (i ∉ t))).filter
            (fun i => decide (i ≠ a)) := by
      rw [List.filter_filter]
      refine congrArg (fun p => (List.range n).filter p) ?_
      funext i
      exact decide_not_mem_cons a i t
    rw [hsplit]
    have hF := ih hand hltt
    have hFnd : ((List.range n).filter (fun i => decide (i ∉ t))).Nodup :=
      (List.nodup_range n).filter _
    have haF : a ∈ (List.range n).filter (fun i => decide (i ∉ t)) := by
      rw [List.mem_filter]
      exact ⟨List.mem_range.mpr (hlt a (List.mem_cons_self a t)), by
        simpa using hanotin⟩
    have herase : ((List.range n).filter (fun i => decide (i ∉ t))).filter
        (fun i => decide (i ≠ a))
        = ((List.range n).filter (fun i => decide (i ∉ t))).erase a := by
      rw [List.Nodup.erase_eq_filter hFnd]
      have hpe : (fun i : Nat => decide (i ≠ a)) = (fun x : Nat => x != a) := by
        funext i
        by_cases h : i = a <;> simp [h]
      rw [hpe]
    rw [herase, List.length_erase_of_mem haF, hF]
    have hpos : 0 < n - t.length := by
      have := List.length_pos.mpr (List.ne_nil_of_mem haF)
      omega
    simp only [List.length_cons]
    omega

lemma mem_legalChanceOutcomes (s : GoofspielState) (a : Nat) :
    a ∈ legalChanceOutcomes s ↔
      a < s.numCards ∧ a ∉ s.pointCardSequence := by
  unfold legalChanceOutcomes chanceOutcomes
  simp [List.mem_filter, List.mem_range, List.mem_dedup]

lemma chanceOutcomes_mem_spec (s : GoofspielState) :
    ∀ pr ∈ chanceOutcomes s,
      pr.1 < s.numCards ∧ pr.1 ∉ s.pointCardSequence ∧
      pr.2 = (1 : ℚ) / ((s.numCards - s.pointCardSequence.dedup.length : Nat) : ℚ) := by
  unfold chanceOutcomes
  intro pr hpr
  simp only [List.mem_map] at hpr
  obtain ⟨i, hi, rfl⟩ := hpr
  rw [List.mem_filter] at hi
  refine ⟨List.mem_range.mp hi.1, ?_, rfl⟩
  have := of_decide_eq_true hi.2
  rw [List.mem_dedup] at this
  exact this

lemma legalChanceOutcomes_length (s : GoofspielState)
    (hnd : s.pointCardSequence.Nodup)
    (hlt : ∀ c ∈ s.pointCardSequence, c < s.numCards) :
    (legalChanceOutcomes s).length
      = s.numCards - s.pointCardSequence.length := by
  unfold legalChanceOutcomes chanceOutcomes
  rw [List.length_map, List.length_map, List.Nodup.dedup hnd]
  exact length_filter_not_mem s.numCards s.pointCardSequence hnd hlt

/-- The specified length of the value-card history: the number of
completed rounds while awaiting a chance draw (and at terminal states
under random ordering), one more while a card is revealed at a bidding
node (capped at `N`). -/
def seqLenSpec (s : GoofspielState) : Nat :=
  match s.currentPlayer with
  | NodePlayer.chance => s.turns
  | NodePlayer.simultaneous => min (s.turns + 1) s.numCards

/-- The well-formedness invariant of reachable states, apart from the
winner-set clauses. -/
structure WFb (s : GoofspielState) : Prop where
  hP : 2 ≤ s.numPlayers
  hN : 1 ≤ s.numCards
  pointsLen : s.points.length = s.numPlayers
  pointsNN : ∀ x ∈ s.points, 0 ≤ x
  handsLen : s.playerHands.length = s.numPlayers
  handLen : ∀ h ∈ s.playerHands, h.length = s.numCards
  handCount : ∀ h ∈ s.playerHands, h.count true = s.numCards - s.turns
  turnsLe : s.turns ≤ s.numCards
  histLen : s.actionsHistory.length = s.turns
  winSeqLen : s.winSequence.length = s.turns
  seqNodup : s.pointCardSequence.Nodup
  seqLt : ∀ c ∈ s.pointCardSequence, c < s.numCards
  seqLen : s.pointCardSequence.length = seqLenSpec s
  chanceInv : s.currentPlayer = NodePlayer.chance →
    s.pointsOrder = PointsOrder.random ∧ s.pointCard = -1
  simulInv : s.currentPlayer = NodePlayer.simultaneous → s.turns < s.numCards →
    ∃ c : Nat, s.pointCard = (c : Int) ∧ c < s.numCards ∧
      s.pointCardSequence.getLast? = some c
  ascInv : s.pointsOrder = PointsOrder.ascending →
    s.currentPlayer = NodePlayer.simultaneous ∧
    s.pointCardSequence = List.range s.pointCardSequence.length
  descInv : s.pointsOrder = PointsOrder.descending →
    s.currentPlayer = NodePlayer.simultaneous ∧
    s.pointCardSequence = (List.range s.pointCardSequence.length).map
      (fun i => s.numCards - 1 - i)

/-- Full well-formedness: the base invariant plus the winner-set
clauses. -/
def WF (s : GoofspielState) : Prop :=
  WFb s ∧ (s.turns < s.numCards → s.winners = []) ∧
    (s.turns = s.numCards → s.winners = winnersOf s.points)

lemma getD_mem {α : Type} (l : List α) (p : Nat) (d : α) (h : p < l.length) :
    l.getD p d ∈ l := by
  rw [List.getD_eq_getElem _ _ h]
  exact List.getElem_mem h

lemma getD_int_nonneg (l : List Int) (hnn : ∀ x ∈ l, 0 ≤ x) (i : Nat) :
    0 ≤ l.getD i 0 := by
  by_cases hi : i < l.length
  · exact hnn _ (getD_mem l i 0 hi)
  · rw [List.getD_eq_default _ _ (le_of_not_lt hi)]

lemma resolveRound_proj (s : GoofspielState) (actions : List Nat) :
    (resolveRound s actions).numCards = s.numCards ∧
    (resolveRound s actions).numPlayers = s.numPlayers ∧
    (resolveRound s actions).pointsOrder = s.pointsOrder ∧
    (resolveRound s actions).returnsType = s.returnsType ∧
    (resolveRound s actions).impinfo = s.impinfo ∧
    (resolveRound s actions).currentPlayer = s.currentPlayer ∧
    (resolveRound s actions).winners = s.winners ∧
    (resolveRound s actions).turns = s.turns ∧
    (resolveRound s actions).pointCard = s.pointCard ∧
    (resolveRound s actions).pointCardSequence = s.pointCardSequence ∧
    (resolveRound s actions).winSequence.length = s.winSequence.length + 1 ∧
    (resolveRound s actions).actionsHistory = s.actionsHistory ++ [actions] ∧
    (resolveRound s actions).playerHands =
      (List.range s.numPlayers).map
        (fun p => (s.playerHands.getD p []).set (actions.getD p 0) false) ∧
    (resolveRound s actions).points.length = s.points.length := by
  by_cases h : (bidFold actions).2.1 = 1 <;> simp [resolveRound, h]

lemma resolveRound_points_nonneg (s : GoofspielState) (actions : List Nat)
    (h0 : 0 ≤ currentPointValue s) (hnn : ∀ x ∈ s.points, 0 ≤ x) :
    ∀ x ∈ (resolveRound s actions).points, 0 ≤ x := by
  by_cases h : (bidFold actions).2.1 = 1
  · simp only [resolveRound, h, if_pos]
    intro x hx
    rcases List.mem_or_eq_of_mem_set hx with hx2 | rfl
    · exact hnn x hx2
    · exact add_nonneg (getD_int_nonneg s.points hnn _) h0
  · simp only [resolveRound, h, if_neg, ite_false]
    exact hnn

lemma dealNextAndAdvance_proj (s : GoofspielState) :
    (dealNextAndAdvance s).numCards = s.numCards ∧
    (dealNextAndAdvance s).numPlayers = s.numPlayers ∧
    (dealNextAndAdvance s).pointsOrder = s.pointsOrder ∧
    (dealNextAndAdvance s).returnsType = s.returnsType ∧
    (dealNextAndAdvance s).impinfo = s.impinfo ∧
    (dealNextAndAdvance s).turns = s.turns + 1 ∧
    (dealNextAndAdvance s).winners = s.winners ∧
    (dealNextAndAdvance s).points = s.points ∧
    (dealNextAndAdvance s).playerHands = s.playerHands ∧
    (dealNextAndAdvance s).actionsHistory = s.actionsHistory ∧
    (dealNextAndAdvance s).winSequence = s.winSequence := by
  cases hpo : s.pointsOrder <;>
    simp [dealNextAndAdvance, hpo, dealPointCard] <;> split <;> simp [hpo]

lemma dealNextAndAdvance_random (s : GoofspielState)
    (h : s.pointsOrder = PointsOrder.random) :
    (dealNextAndAdvance s).currentPlayer = NodePlayer.chance ∧
    (dealNextAndAdvance s).pointCard = -1 ∧
    (dealNextAndAdvance s).pointCardSequence = s.pointCardSequence := by
  simp [dealNextAndAdvance, h]

lemma dealNextAndAdvance_asc (s : GoofspielState)
    (h : s.pointsOrder = PointsOrder.ascending) :
    (dealNextAndAdvance s).currentPlayer = s.currentPlayer ∧
    (s.pointCard < (s.numCards : Int) - 1 →
      (dealNextAndAdvance s).pointCardSequence
          = s.pointCardSequence ++ [(s.pointCard + 1).toNat] ∧
      (dealNextAndAdvance s).pointCard = ((s.pointCard + 1).toNat : Int)) ∧
    (¬ s.pointCard < (s.numCards : Int) - 1 →
      (dealNextAndAdvance s).pointCardSequence = s.pointCardSequence ∧
      (dealNextAndAdvance s).pointCard = s.pointCard) := by
  refine ⟨?_, ?_, ?_⟩
  · simp only [dealNextAndAdvance, h]
    split <;> simp [dealPointCard]
  · intro hlt
    simp [dealNextAndAdvance, h, hlt, dealPointCard]
  · intro hlt
    simp [dealNextAndAdvance, h, hlt]

lemma dealNextAndAdvance_desc (s : GoofspielState)
    (h : s.pointsOrder = PointsOrder.descending) :
    (dealNextAndAdvance s).currentPlayer = s.currentPlayer ∧
    (s.pointCard > 0 →
      (dealNextAndAdvance s).pointCardSequence
          = s.pointCardSequence ++ [(s.pointCard - 1).toNat] ∧
      (dealNextAndAdvance s).pointCard = ((s.pointCard - 1).toNat : Int)) ∧
    (¬ s.pointCard > 0 →
      (dealNextAndAdvance s).pointCardSequence = s.pointCardSequence ∧
      (dealNextAndAdvance s).pointCard = s.pointCard) := by
  refine ⟨?_, ?_, ?_⟩
  · simp only [dealNextAndAdvance, h]
    split <;> simp [dealPointCard]
  · intro hlt
    simp [dealNextAndAdvance, h, hlt, dealPointCard]
  · intro hlt
    simp [dealNextAndAdvance, h, hlt]

lemma hands_after_resolve (s : GoofspielState) (actions : List Nat)
    (hwf : WFb s) (hval : ValidActions s actions)
    (hturns : s.turns < s.numCards) :
    (∀ h ∈ (List.range s.numPlayers).map
        (fun p => (s.playerHands.getD p []).set (actions.getD p 0) false),
      h.length = s.numCards ∧
      h.count true = s.numCards - (s.turns + 1)) := by
  intro h hh
  rw [List.mem_map] at hh
  obtain ⟨p, hp, rfl⟩ := hh
  rw [List.mem_range] at hp
  have hplt : p < s.playerHands.length := by
    rw [hwf.handsLen]
    exact hp
  have hhand : s.playerHands.getD p [] ∈ s.playerHands :=
    getD_mem s.playerHands p [] hplt
  have hlen : (s.playerHands.getD p []).length = s.numCards :=
    hwf.handLen _ hhand
  have hcnt : (s.playerHands.getD p []).count true = s.numCards - s.turns :=
    hwf.handCount _ hhand
  obtain ⟨_, hvp⟩ := hval
  obtain ⟨haction, hheld⟩ := hvp p hp
  have hidx : actions.getD p 0 < (s.playerHands.getD p []).length := by
    rw [hlen]
    exact haction
  constructor
  · rw [List.length_set, hlen]
  · have := count_true_set_false (s.playerHands.getD p []) (actions.getD p 0)
      hidx hheld
    omega


lemma getLast?_range_succ (n : Nat) : (List.range (n + 1)).getLast? = some n := by
  rw [List.range_succ]
  exact List.getLast?_concat _

lemma getLast?_map_range_succ {α : Type} (f : Nat → α) (n : Nat) :
    ((List.range (n + 1)).map f).getLast? = some (f n) := by
  rw [List.range_succ, List.map_append]
  exact List.getLast?_concat _

/-- One simultaneous-move resolution step (lines 314-367) preserves the
base invariant, increments the turn counter, appends the joint action to
the history, extends the point-card sequence, and leaves the winner set
untouched. -/
lemma simStep_WFb (s : GoofspielState) (actions : List Nat) (hwfb : WFb s)
    (hsim : isSimultaneousNode s = true) (hval : ValidActions s actions) :
    WFb (dealNextAndAdvance (resolveRound s actions)) ∧
    (dealNextAndAdvance (resolveRound s actions)).winners = s.winners ∧
    (dealNextAndAdvance (resolveRound s actions)).turns = s.turns + 1 ∧
    (dealNextAndAdvance (resolveRound s actions)).numCards = s.numCards ∧
    (dealNextAndAdvance (resolveRound s actions)).numPlayers = s.numPlayers ∧
    (dealNextAndAdvance (resolveRound s actions)).pointsOrder = s.pointsOrder ∧
    (dealNextAndAdvance (resolveRound s actions)).returnsType = s.returnsType ∧
    (dealNextAndAdvance (resolveRound s actions)).points.length = s.points.length ∧
    (∀ x ∈ (dealNextAndAdvance (resolveRound s actions)).points, 0 ≤ x) ∧
    (dealNextAndAdvance (resolveRound s actions)).actionsHistory
      = s.actionsHistory ++ [actions] ∧
    ∃ ext, (dealNextAndAdvance (resolveRound s actions)).pointCardSequence
      = s.pointCardSequence ++ ext := by
  obtain ⟨hr1, hr2, hr3, hr4, hr5, hr6, hr7, hr8, hr9, hr10, hr11, hr12,
    hr13, hr14⟩ := resolveRound_proj s actions
  obtain ⟨hd1, hd2, hd3, hd4, hd5, hd6, hd7, hd8, hd9, hd10, hd11⟩ :=
    dealNextAndAdvance_proj (resolveRound s actions)
  set s1 := dealNextAndAdvance (resolveRound s actions) with hs1def
  have hterm : s.turns ≠ s.numCards := by
    simp [isSimultaneousNode, isTerminal] at hsim
    exact hsim.1
  have hcur : s.currentPlayer = NodePlayer.simultaneous := by
    simp [isSimultaneousNode, isTerminal] at hsim
    exact hsim.2
  have hturns : s.turns < s.numCards := lt_of_le_of_ne hwfb.turnsLe hterm
  obtain ⟨c, hcpc, hclt, hclast⟩ := hwfb.simulInv hcur hturns
  have hcpv : 0 ≤ currentPointValue s := by
    unfold currentPointValue
    rw [hcpc]
    positivity
  have hslen : s.pointCardSequence.length = s.turns + 1 := by
    rw [hwfb.seqLen]
    simp only [seqLenSpec, hcur]
    omega
  have hC : s1.numCards = s.numCards := by rw [hd1, hr1]
  have hPl : s1.numPlayers = s.numPlayers := by rw [hd2, hr2]
  have hPO : s1.pointsOrder = s.pointsOrder := by rw [hd3, hr3]
  have hRT : s1.returnsType = s.returnsType := by rw [hd4, hr4]
  have hT : s1.turns = s.turns + 1 := by rw [hd6, hr8]
  have hW : s1.winners = s.winners := by rw [hd7, hr7]
  have hPts : s1.points.length = s.points.length := by rw [hd8, hr14]
  have hPtsNN : ∀ x ∈ s1.points, 0 ≤ x := by
    rw [hd8]
    exact resolveRound_points_nonneg s actions hcpv hwfb.pointsNN
  have hHist : s1.actionsHistory = s.actionsHistory ++ [actions] := by
    rw [hd10, hr12]
  have hWS : s1.winSequence.length = s.turns + 1 := by
    rw [hd11, hr11, hwfb.winSeqLen]
  have hHands : s1.playerHands = (List.range s.numPlayers).map
      (fun p => (s.playerHands.getD p []).set (actions.getD p 0) false) := by
    rw [hd9, hr13]
  have hhands2 := hands_after_resolve s actions hwfb hval hturns
  have hmode :
      s1.pointCardSequence.Nodup ∧
      (∀ c2 ∈ s1.pointCardSequence, c2 < s.numCards) ∧
      s1.pointCardSequence.length = seqLenSpec s1 ∧
      (s1.currentPlayer = NodePlayer.chance →
        s1.pointsOrder = PointsOrder.random ∧ s1.pointCard = -1) ∧
      (s1.currentPlayer = NodePlayer.simultaneous → s1.turns < s1.numCards →
        ∃ c2 : Nat, s1.pointCard = (c2 : Int) ∧ c2 < s1.numCards ∧
          s1.pointCardSequence.getLast? = some c2) ∧
      (s1.pointsOrder = PointsOrder.ascending →
        s1.currentPlayer = NodePlayer.simultaneous ∧
        s1.pointCardSequence = List.range s1.pointCardSequence.length) ∧
      (s1.pointsOrder = PointsOrder.descending →
        s1.currentPlayer = NodePlayer.simultaneous ∧
        s1.pointCardSequence = (List.range s1.pointCardSequence.length).map
          (fun i => s1.numCards - 1 - i)) ∧
      (∃ ext, s1.pointCardSequence = s.pointCardSequence ++ ext) := by
    have hcpvnn := hcpv
    cases hpo : s.pointsOrder with
    | random =>
      obtain ⟨hm1, hm2, hm3⟩ :=
        dealNextAndAdvance_random (resolveRound s actions) (by rw [hr3]; exact hpo)
      rw [← hs1def] at hm1 hm2 hm3
      rw [hr10] at hm3
      refine ⟨by rw [hm3]; exact hwfb.seqNodup,
        by rw [hm3]; exact hwfb.seqLt,
        ?_, fun _ => ⟨by rw [hPO]; exact hpo, hm2⟩, ?_, ?_, ?_,
        ⟨[], by rw [hm3, List.append_nil]⟩⟩
      · rw [hm3, hslen]
        simp only [seqLenSpec, hm1, hT]
      · intro h _
        rw [hm1] at h
        exact absurd h (by decide)
      · intro h
        rw [hPO, hpo] at h
        exact absurd h (by decide)
      · intro h
        rw [hPO, hpo] at h
        exact absurd h (by decide)
    | ascending =>
      obtain ⟨hcur2, hrange⟩ := hwfb.ascInv hpo
      have hrange2 : s.pointCardSequence = List.range (s.turns + 1) := by
        rw [hslen] at hrange
        exact hrange
      have hlast : s.pointCardSequence.getLast? = some s.turns := by
        rw [hrange2, getLast?_range_succ]
      have hc : c = s.turns := by
        rw [hlast] at hclast
        exact (Option.some.inj hclast).symm
      obtain ⟨hcurD, hdeal, hnodeal⟩ :=
        dealNextAndAdvance_asc (resolveRound s actions) (by rw [hr3]; exact hpo)
      rw [← hs1def] at hcurD hdeal hnodeal
      rw [hr6] at hcurD
      rw [hr9, hr1, hr10] at hdeal hnodeal
      have hcur3 : s1.currentPlayer = NodePlayer.simultaneous := by
        rw [hcurD, hcur]
      by_cases hcase : s.pointCard < (s.numCards : Int) - 1
      · obtain ⟨hseq1, hpc1⟩ := hdeal hcase
        have htlt : s.turns + 1 < s.numCards := by
          rw [hcpc, hc] at hcase
          omega
        have htoNat : (s.pointCard + 1).toNat = s.turns + 1 := by
          rw [hcpc, hc]
          omega
        have hseq2 : s1.pointCardSequence = List.range (s.turns + 2) := by
          rw [hseq1, htoNat, hrange2, ← List.range_succ]
        refine ⟨by rw [hseq2]; exact List.nodup_range _,
          ?_, ?_, ?_, ?_, fun _ => ⟨hcur3, by rw [hseq2]; simp⟩, ?_,
          ⟨[(s.pointCard + 1).toNat], hseq1⟩⟩
        · intro c2 hc2
          rw [hseq2, List.mem_range] at hc2
          omega
        · rw [hseq2]
          simp only [seqLenSpec, hcur3, hT, hC, List.length_range]
          omega
        · intro h
          rw [hcur3] at h
          exact absurd h (by decide)
        · intro _ _
          refine ⟨s.turns + 1, by rw [hpc1, htoNat], by rw [hC]; omega, ?_⟩
          rw [hseq2]
          exact getLast?_range_succ (s.turns + 1)
        · intro h
          rw [hPO, hpo] at h
          exact absurd h (by decide)
      · obtain ⟨hseq1, hpc1⟩ := hnodeal hcase
        have hteq : s.turns + 1 = s.numCards := by
          rw [hcpc, hc] at hcase
          omega
        refine ⟨by rw [hseq1]; exact hwfb.seqNodup,
          by rw [hseq1]; exact hwfb.seqLt,
          ?_, ?_, ?_, fun _ => ⟨hcur3, by rw [hseq1]; exact hrange⟩, ?_,
          ⟨[], by rw [hseq1, List.append_nil]⟩⟩
        · rw [hseq1, hslen]
          simp only [seqLenSpec, hcur3, hT, hC]
          omega
        · intro h
          rw [hcur3] at h
          exact absurd h (by decide)
        · intro _ habs
          rw [hT, hC] at habs
          omega
        · intro h
          rw [hPO, hpo] at h
          exact absurd h (by decide)
    | descending =>
      obtain ⟨hcur2, hmap⟩ := hwfb.descInv hpo
      have hmap2 : s.pointCardSequence = (List.range (s.turns + 1)).map
          (fun i => s.numCards - 1 - i) := by
        rw [hslen] at hmap
        exact hmap
      have hlast : s.pointCardSequence.getLast?
          = some (s.numCards - 1 - s.turns) := by
        rw [hmap2, getLast?_map_range_succ]
      have hc : c = s.numCards - 1 - s.turns := by
        rw [hlast] at hclast
        exact (Option.some.inj hclast).symm
      obtain ⟨hcurD, hdeal, hnodeal⟩ :=
        dealNextAndAdvance_desc (resolveRound s actions) (by rw [hr3]; exact hpo)
      rw [← hs1def] at hcurD hdeal hnodeal
      rw [hr6] at hcurD
      rw [hr9, hr10] at hdeal hnodeal
      have hcur3 : s1.currentPlayer = NodePlayer.simultaneous := by
        rw [hcurD, hcur]
      by_cases hcase : s.pointCard > 0
      · obtain ⟨hseq1, hpc1⟩ := hdeal hcase
        have htlt : s.turns + 1 < s.numCards := by
          rw [hcpc, hc] at hcase
          omega
        have htoNat : (s.pointCard - 1).toNat
            = s.numCards - 1 - (s.turns + 1) := by
          rw [hcpc, hc] at hcase ⊢
          omega
        have hseq2 : s1.pointCardSequence = (List.range (s.turns + 2)).map
            (fun i => s.numCards - 1 - i) := by
          rw [hseq1, htoNat, hmap2,
            show [s.numCards - 1 - (s.turns + 1)]
                = List.map (fun i => s.numCards - 1 - i) [s.turns + 1] from rfl,
            ← List.map_append, ← List.range_succ]
        refine ⟨?_, ?_, ?_, ?_, ?_, ?_,
          fun _ => ⟨hcur3, ?_⟩,
          ⟨[(s.pointCard - 1).toNat], hseq1⟩⟩
        · rw [hseq2]
          refine List.Nodup.map_on ?_ (List.nodup_range _)
          intro x hx y hy hxy
          rw [List.mem_range] at hx hy
          omega
        · intro c2 hc2
          rw [hseq2, List.mem_map] at hc2
          obtain ⟨i, _, rfl⟩ := hc2
          omega
        · rw [hseq2]
          simp only [seqLenSpec, hcur3, hT, hC, List.length_map, List.length_range]
          omega
        · intro h
          rw [hcur3] at h
          exact absurd h (by decide)
        · intro _ _
          refine ⟨s.numCards - 1 - (s.turns + 1), by rw [hpc1, htoNat],
            by rw [hC]; omega, ?_⟩
          rw [hseq2]
          exact getLast?_map_range_succ _ (s.turns + 1)
        · intro h
          rw [hPO, hpo] at h
          exact absurd h (by decide)
        · rw [hseq2, hC]
          simp only [List.length_map, List.length_range]
      · obtain ⟨hseq1, hpc1⟩ := hnodeal hcase
        have hteq : s.turns + 1 = s.numCards := by
          rw [hcpc, hc] at hcase
          omega
        refine ⟨by rw [hseq1]; exact hwfb.seqNodup,
          by rw [hseq1]; exact hwfb.seqLt,
          ?_, ?_, ?_, ?_,
          fun _ => ⟨hcur3, by rw [hseq1, hC]; exact hmap⟩,
          ⟨[], by rw [hseq1, List.append_nil]⟩⟩
        · rw [hseq1, hslen]
          simp only [seqLenSpec, hcur3, hT, hC]
          omega
        · intro h
          rw [hcur3] at h
          exact absurd h (by decide)
        · intro _ habs
          rw [hT, hC] at habs
          omega
        · intro h
          rw [hPO, hpo] at h
          exact absurd h (by decide)
  refine ⟨⟨?_, ?_, ?_, ?_, ?_, ?_, ?_, ?_, ?_, ?_, ?_, ?_, ?_, ?_, ?_, ?_, ?_⟩,
    hW, hT, hC, hPl, hPO, hRT, hPts, hPtsNN, hHist, hmode.2.2.2.2.2.2.2⟩
  · rw [hPl]; exact hwfb.hP
  · rw [hC]; exact hwfb.hN
  · rw [hPts, hPl, hwfb.pointsLen]
  · exact hPtsNN
  · rw [hHands, hPl]
    simp
  · intro h hh
    rw [hC]
    rw [hHands] at hh
    exact (hhands2 h hh).1
  · intro h hh
    rw [hC, hT]
    rw [hHands] at hh
    exact (hhands2 h hh).2
  · rw [hC, hT]; omega
  · rw [hHist, hT]
    simp [hwfb.histLen]
  · rw [hWS, hT]
  · exact hmode.1
  · rw [hC]; exact hmode.2.1
  · exact hmode.2.2.1
  · exact hmode.2.2.2.1
  · exact hmode.2.2.2.2.1
  · exact hmode.2.2.2.2.2.1
  · exact hmode.2.2.2.2.2.2.1

/-- A legal chance draw (DoApplyAction at a chance node) preserves the
invariant. -/
lemma chanceStep_WF (s : GoofspielState) (a : Nat) (hwf : WF s)
    (hch : isChanceNode s = true) (ha : a ∈ legalChanceOutcomes s) :
    WF (doApplyActionChance s a) := by
  obtain ⟨hwfb, hwnt, hwt⟩ := hwf
  have hterm : s.turns ≠ s.numCards := by
    simp [isChanceNode, isTerminal] at hch
    exact hch.1
  have hcur : s.currentPlayer = NodePlayer.chance := by
    simp [isChanceNode, isTerminal] at hch
    exact hch.2
  have hturns : s.turns < s.numCards := lt_of_le_of_ne hwfb.turnsLe hterm
  obtain ⟨haN, hanotin⟩ := (mem_legalChanceOutcomes s a).mp ha
  have hpo : s.pointsOrder = PointsOrder.random := (hwfb.chanceInv hcur).1
  have hslen : s.pointCardSequence.length = s.turns := by
    rw [hwfb.seqLen]
    simp only [seqLenSpec, hcur]
  refine ⟨⟨hwfb.hP, hwfb.hN, hwfb.pointsLen, hwfb.pointsNN, hwfb.handsLen,
    hwfb.handLen, hwfb.handCount, hwfb.turnsLe, hwfb.histLen,
    hwfb.winSeqLen, ?_, ?_, ?_, ?_, ?_, ?_, ?_⟩, ?_, ?_⟩
  · show (s.pointCardSequence ++ [a]).Nodup
    rw [List.nodup_append]
    exact ⟨hwfb.seqNodup, List.nodup_singleton a,
      fun x hx => by simp; intro hxa; rw [hxa] at hx; exact hanotin hx⟩
  · show ∀ c ∈ s.pointCardSequence ++ [a], c < s.numCards
    intro c hc
    rcases List.mem_append.mp hc with hc | hc
    · exact hwfb.seqLt c hc
    · rw [List.mem_singleton.mp hc]
      exact haN
  · show (s.pointCardSequence ++ [a]).length = seqLenSpec (doApplyActionChance s a)
    simp only [seqLenSpec, doApplyActionChance, dealPointCard, List.length_append,
      List.length_singleton, hslen]
    omega
  · intro h
    exact absurd h (by simp [doApplyActionChance])
  · intro _ _
    refine ⟨a, rfl, haN, ?_⟩
    show (s.pointCardSequence ++ [a]).getLast? = some a
    exact List.getLast?_concat _
  · intro h
    simp only [doApplyActionChance, dealPointCard] at h
    rw [hpo] at h
    exact absurd h (by decide)
  · intro h
    simp only [doApplyActionChance, dealPointCard] at h
    rw [hpo] at h
    exact absurd h (by decide)
  · intro _
    exact hwnt hturns
  · intro h
    simp only [doApplyActionChance, dealPointCard] at h
    omega

/-- The initial state satisfies the invariant. -/
lemma initialState_WF (g : GoofspielGame) (hN : 1 ≤ g.numCards)
    (hP : 2 ≤ g.numPlayers) : WF (initialState g) := by
  cases hpo : g.pointsOrder with
  | random =>
    refine ⟨⟨?_, ?_, ?_, ?_, ?_, ?_, ?_, ?_, ?_, ?_, ?_, ?_, ?_, ?_, ?_, ?_, ?_⟩,
      ?_, ?_⟩ <;>
      simp [initialState, hpo, seqLenSpec, dealPointCard, List.count_replicate] <;>
      first
        | omega
        | (intro h hmem; simp [List.eq_of_mem_replicate hmem])
        | rfl
        | (rw [List.range_succ]; rfl)
        | (rw [List.range_succ]; simp)
        | skip
  | ascending =>
    refine ⟨⟨?_, ?_, ?_, ?_, ?_, ?_, ?_, ?_, ?_, ?_, ?_, ?_, ?_, ?_, ?_, ?_, ?_⟩,
      ?_, ?_⟩ <;>
      simp [initialState, hpo, seqLenSpec, dealPointCard, List.count_replicate] <;>
      first
        | omega
        | (intro h hmem; simp [List.eq_of_mem_replicate hmem])
        | rfl
        | (rw [List.range_succ]; rfl)
        | (rw [List.range_succ]; simp)
        | skip
  | descending =>
    refine ⟨⟨?_, ?_, ?_, ?_, ?_, ?_, ?_, ?_, ?_, ?_, ?_, ?_, ?_, ?_, ?_, ?_, ?_⟩,
      ?_, ?_⟩ <;>
      simp [initialState, hpo, seqLenSpec, dealPointCard, List.count_replicate] <;>
      first
        | omega
        | (intro h hmem; simp [List.eq_of_mem_replicate hmem])
        | rfl
        | (rw [List.range_succ]; rfl)
        | (rw [List.range_succ]; simp)
        | skip

lemma doApplyActionsAux_succ (fuel : Nat) (s : GoofspielState)
    (actions : List Nat) :
    doApplyActionsAux (fuel + 1) s actions =
      (if (dealNextAndAdvance (resolveRound s actions)).turns
          = (dealNextAndAdvance (resolveRound s actions)).numCards - 1 then
        doApplyActionsAux fuel
          (if isChanceNode (dealNextAndAdvance (resolveRound s actions)) then
            doApplyActionChance (dealNextAndAdvance (resolveRound s actions))
              ((legalChanceOutcomes
                (dealNextAndAdvance (resolveRound s actions))).headD 0)
          else dealNextAndAdvance (resolveRound s actions))
          (forcedActions
            (if isChanceNode (dealNextAndAdvance (resolveRound s actions)) then
              doApplyActionChance (dealNextAndAdvance (resolveRound s actions))
                ((legalChanceOutcomes
                  (dealNextAndAdvance (resolveRound s actions))).headD 0)
            else dealNextAndAdvance (resolveRound s actions)))
      else if (dealNextAndAdvance (resolveRound s actions)).turns
          = (dealNextAndAdvance (resolveRound s actions)).numCards then
        setWinners (dealNextAndAdvance (resolveRound s actions))
      else dealNextAndAdvance (resolveRound s actions)) := rfl

lemma setWinners_proj (s : GoofspielState) :
    (setWinners s).numCards = s.numCards ∧
    (setWinners s).numPlayers = s.numPlayers ∧
    (setWinners s).pointsOrder = s.pointsOrder ∧
    (setWinners s).returnsType = s.returnsType ∧
    (setWinners s).turns = s.turns ∧
    (setWinners s).points = s.points ∧
    (setWinners s).playerHands = s.playerHands ∧
    (setWinners s).actionsHistory = s.actionsHistory ∧
    (setWinners s).winSequence = s.winSequence ∧
    (setWinners s).pointCardSequence = s.pointCardSequence ∧
    (setWinners s).currentPlayer = s.currentPlayer ∧
    (setWinners s).pointCard = s.pointCard := by
  simp [setWinners]

lemma setWinners_WFb (s : GoofspielState) (h : WFb s) : WFb (setWinners s) :=
  ⟨h.hP, h.hN, h.pointsLen, h.pointsNN, h.handsLen, h.handLen, h.handCount,
    h.turnsLe, h.histLen, h.winSeqLen, h.seqNodup, h.seqLt, h.seqLen,
    h.chanceInv, h.simulInv, h.ascInv, h.descInv⟩

lemma setWinners_winners (s : GoofspielState) (h : s.winners = []) :
    (setWinners s).winners = winnersOf s.points := by
  simp only [setWinners, winnersOf, h]

/-- Terminal states have a full value-card history. -/
lemma WF_terminal_seqLen (s : GoofspielState) (hwfb : WFb s)
    (ht : s.turns = s.numCards) :
    s.pointCardSequence.length = s.numCards := by
  rw [hwfb.seqLen]
  cases hcur : s.currentPlayer <;> simp [seqLenSpec, hcur, ht] <;> omega

/-- When every hand holds exactly one card, the forced last actions are
valid. -/
lemma forcedActions_valid (s2 : GoofspielState) (hwfb : WFb s2)
    (hone : ∀ h ∈ s2.playerHands, h.count true = 1) :
    ValidActions s2 (forcedActions s2) := by
  refine ⟨by simp [forcedActions], ?_⟩
  intro p hp
  have hget : (forcedActions s2).getD p 0 = (legalActionsOf s2 p).headD 0 := by
    unfold forcedActions
    rw [getD_range_map _ _ _ _ hp]
  have hplt : p < s2.playerHands.length := by
    rw [hwfb.handsLen]
    exact hp
  have hmem : s2.playerHands.getD p [] ∈ s2.playerHands :=
    getD_mem s2.playerHands p [] hplt
  have hlen1 : (legalActionsOf s2 p).length = 1 := by
    rw [legalActionsOf_length]
    exact hone _ hmem
  have hsing : legalActionsOf s2 p = [(legalActionsOf s2 p).getD 0 0] :=
    eq_singleton_of_length_one _ 0 hlen1
  have hhead : (legalActionsOf s2 p).headD 0 = (legalActionsOf s2 p).getD 0 0 := by
    rw [hsing]
    rfl
  have hmem2 : (legalActionsOf s2 p).getD 0 0 ∈ legalActionsOf s2 p := by
    rw [hsing]
    exact List.mem_singleton_self _
  obtain ⟨hblt, hbheld⟩ := (mem_legalActionsOf s2 p _).mp hmem2
  rw [hget, hhead]
  refine ⟨?_, hbheld⟩
  rw [← hwfb.handLen _ hmem]
  exact hblt

/-- `DoApplyActions` (with its forced final-round auto-play and terminal
winner computation) preserves the invariant; the turn counter and the
action history advance by one round normally, and jump to the end of
the game when one round would remain. -/
lemma doApplyActions_WF (s : GoofspielState) (actions : List Nat)
    (hwf : WF s) (hsim : isSimultaneousNode s = true)
    (hval : ValidActions s actions) :
    WF (doApplyActions s actions) ∧
    (doApplyActions s actions).numCards = s.numCards ∧
    (doApplyActions s actions).numPlayers = s.numPlayers ∧
    (doApplyActions s actions).pointsOrder = s.pointsOrder ∧
    (doApplyActions s actions).returnsType = s.returnsType ∧
    (∃ ext, (doApplyActions s actions).pointCardSequence
      = s.pointCardSequence ++ ext) ∧
    (s.turns + 2 = s.numCards →
      (doApplyActions s actions).turns = (doApplyActions s actions).numCards ∧
      ∃ forced, (doApplyActions s actions).actionsHistory
        = s.actionsHistory ++ [actions, forced]) ∧
    (s.turns + 2 ≠ s.numCards →
      (doApplyActions s actions).turns = s.turns + 1 ∧
      (doApplyActions s actions).actionsHistory
        = s.actionsHistory ++ [actions]) := by
  obtain ⟨hwfb, hwnt, hwt⟩ := hwf
  have hterm : s.turns ≠ s.numCards := by
    simp [isSimultaneousNode, isTerminal] at hsim
    exact hsim.1
  have hturns : s.turns < s.numCards := lt_of_le_of_ne hwfb.turnsLe hterm
  obtain ⟨hb1, hW1, hT1, hC1, hPl1, hPO1, hRT1, hPts1, hPtsNN1, hHist1,
    hext1⟩ := simStep_WFb s actions hwfb hsim hval
  set s1 := dealNextAndAdvance (resolveRound s actions) with hs1def
  have hN1 : 1 ≤ s.numCards := hwfb.hN
  by_cases hA : s.turns + 1 = s.numCards
  · -- the game ends with this resolution
    have hcond1 : ¬ (s1.turns = s1.numCards - 1) := by
      rw [hT1, hC1]
      omega
    have hcond2 : s1.turns = s1.numCards := by
      rw [hT1, hC1]
      omega
    have hred : doApplyActions s actions = setWinners s1 := by
      unfold doApplyActions
      rw [doApplyActionsAux_succ, ← hs1def, if_neg hcond1, if_pos hcond2]
    obtain ⟨hz1, hz2, hz3, hz4, hz5, hz6, hz7, hz8, hz9, hz10, hz11, hz12⟩ :=
      setWinners_proj s1
    have hwempty : s1.winners = [] := by
      rw [hW1]
      exact hwnt hturns
    rw [hred]
    refine ⟨⟨setWinners_WFb s1 hb1, ?_, ?_⟩, ?_, ?_, ?_, ?_, ?_, ?_, ?_⟩
    · rw [hz5, hz1, hcond2]
      intro h
      omega
    · intro _
      rw [setWinners_winners s1 hwempty, hz6]
    · rw [hz1, hC1]
    · rw [hz2, hPl1]
    · rw [hz3, hPO1]
    · rw [hz4, hRT1]
    · rw [hz10]
      exact hext1
    · intro h
      omega
    · intro _
      rw [hz5, hT1, hz8, hHist1]
      exact ⟨rfl, rfl⟩
  · by_cases hB : s.turns + 2 = s.numCards
    · -- one round remains: the engine auto-plays it
      have hcond1 : s1.turns = s1.numCards - 1 := by
        rw [hT1, hC1]
        omega
      have hs1nt : s1.turns < s1.numCards := by
        rw [hT1, hC1]
        omega
      have hs1ntne : s1.turns ≠ s1.numCards := by omega
      have hwempty : s1.winners = [] := by
        rw [hW1]
        exact hwnt hturns
      have hWFs1 : WF s1 := ⟨hb1, fun _ => hwempty, fun h => absurd h hs1ntne⟩
      set s2 := if isChanceNode s1 then
          doApplyActionChance s1 ((legalChanceOutcomes s1).headD 0)
        else s1 with hs2def
      have hred : doApplyActions s actions
          = doApplyActionsAux 1 s2 (forcedActions s2) := by
        unfold doApplyActions
        rw [doApplyActionsAux_succ, ← hs1def, if_pos hcond1, ← hs2def]
      -- facts about s2
      have hs2facts : WF s2 ∧ s2.turns = s1.turns ∧ s2.numCards = s1.numCards ∧
          s2.numPlayers = s1.numPlayers ∧ s2.pointsOrder = s1.pointsOrder ∧
          s2.returnsType = s1.returnsType ∧
          s2.actionsHistory = s1.actionsHistory ∧
          s2.currentPlayer = NodePlayer.simultaneous ∧
          (∃ ext, s2.pointCardSequence = s1.pointCardSequence ++ ext) := by
        by_cases hch : isChanceNode s1 = true
        · have hchcur : s1.currentPlayer = NodePlayer.chance := by
            simp [isChanceNode, isTerminal] at hch
            exact hch.2
          have hs1len : s1.pointCardSequence.length = s1.turns := by
            rw [hb1.seqLen]
            simp [seqLenSpec, hchcur]
          have hlco : (legalChanceOutcomes s1).length = 1 := by
            rw [legalChanceOutcomes_length s1 hb1.seqNodup hb1.seqLt, hs1len]
            omega
          have hsing : legalChanceOutcomes s1
              = [(legalChanceOutcomes s1).getD 0 0] :=
            eq_singleton_of_length_one _ 0 hlco
          have hhead : (legalChanceOutcomes s1).headD 0
              = (legalChanceOutcomes s1).getD 0 0 := by
            rw [hsing]
            rfl
          have hmemo : (legalChanceOutcomes s1).headD 0 ∈ legalChanceOutcomes s1 := by
            rw [hhead, hsing]
            exact List.mem_singleton_self _
          have hwf2 := chanceStep_WF s1 _ hWFs1 hch hmemo
          rw [hs2def, if_pos hch]
          exact ⟨hwf2, rfl, rfl, rfl, rfl, rfl, rfl, rfl,
            ⟨[(legalChanceOutcomes s1).headD 0], rfl⟩⟩
        · have hch2 : isChanceNode s1 = false := by
            rw [Bool.not_eq_true] at hch
            exact hch
          have hcur2 : s1.currentPlayer = NodePlayer.simultaneous := by
            simp [isChanceNode, isTerminal, hs1ntne] at hch2
            cases hcc : s1.currentPlayer with
            | chance => exact absurd hcc hch2
            | simultaneous => rfl
          rw [hs2def, if_neg (by rw [hch2]; exact Bool.false_ne_true)]
          exact ⟨hWFs1, rfl, rfl, rfl, rfl, rfl, rfl, hcur2, ⟨[], by simp⟩⟩
      obtain ⟨hWFs2, hq1, hq2, hq3, hq4, hq5, hq6, hq7, hq8⟩ := hs2facts
      have hsim2 : isSimultaneousNode s2 = true := by
        simp [isSimultaneousNode, isTerminal, hq7]
        rw [hq1, hq2]
        omega
      have hone : ∀ h ∈ s2.playerHands, h.count true = 1 := by
        intro h hh
        have := hWFs2.1.handCount h hh
        rw [hq1, hq2, hT1, hC1] at this
        omega
      have hforced := forcedActions_valid s2 hWFs2.1 hone
      obtain ⟨hb3, hW3, hT3, hC3, hPl3, hPO3, hRT3, hPts3, hPtsNN3, hHist3,
        hext3⟩ := simStep_WFb s2 (forcedActions s2) hWFs2.1 hsim2 hforced
      set s3 := dealNextAndAdvance (resolveRound s2 (forcedActions s2))
        with hs3def
      have hs3turns : s3.turns = s3.numCards := by
        rw [hT3, hC3, hq1, hq2, hT1, hC1]
        omega
      have hs3cond1 : ¬ (s3.turns = s3.numCards - 1) := by
        rw [hT3, hC3, hq1, hq2, hT1, hC1]
        omega
      have hred2 : doApplyActionsAux 1 s2 (forcedActions s2) = setWinners s3 := by
        rw [doApplyActionsAux_succ, ← hs3def, if_neg hs3cond1, if_pos hs3turns]
      obtain ⟨hz1, hz2, hz3, hz4, hz5, hz6, hz7, hz8, hz9, hz10, hz11, hz12⟩ :=
        setWinners_proj s3
      have hw3empty : s3.winners = [] := by
        rw [hW3]
        have hners : s2.winners = [] := by
          have := hWFs2.2.1
          rw [hq1, hq2] at this
          exact this hs1nt
        exact hners
      rw [hred, hred2]
      refine ⟨⟨setWinners_WFb s3 hb3, ?_, ?_⟩, ?_, ?_, ?_, ?_, ?_, ?_, ?_⟩
      · rw [hz5, hz1, hs3turns]
        intro h
        omega
      · intro _
        rw [setWinners_winners s3 hw3empty, hz6]
      · rw [hz1, hC3, hq2, hC1]
      · rw [hz2, hPl3, hq3, hPl1]
      · rw [hz3, hPO3, hq4, hPO1]
      · rw [hz4, hRT3, hq5, hRT1]
      · rw [hz10]
        obtain ⟨e3, he3⟩ := hext3
        obtain ⟨e2, he2⟩ := hq8
        obtain ⟨e1, he1⟩ := hext1
        exact ⟨e1 ++ e2 ++ e3, by
          rw [he3, he2, he1]
          simp⟩
      · intro _
        refine ⟨by rw [hz5, hz1, hs3turns], ?_⟩
        refine ⟨forcedActions s2, ?_⟩
        rw [hz8, hHist3, hq6, hHist1]
        simp
      · intro h
        exact absurd hB h
    · -- an ordinary mid-game round
      have hcond1 : ¬ (s1.turns = s1.numCards - 1) := by
        rw [hT1, hC1]
        omega
      have hcond2 : ¬ (s1.turns = s1.numCards) := by
        rw [hT1, hC1]
        omega
      have hred : doApplyActions s actions = s1 := by
        unfold doApplyActions
        rw [doApplyActionsAux_succ, ← hs1def, if_neg hcond1, if_neg hcond2]
      have hs1nt : s1.turns < s1.numCards := by
        rw [hT1, hC1]
        omega
      rw [hred]
      refine ⟨⟨?_, ?_, ?_⟩, ?_, ?_, ?_, ?_, ?_, ?_, ?_⟩
      · exact hb1
      · intro _
        rw [hW1]
        exact hwnt hturns
      · intro h
        rw [hT1, hC1] at h
        omega
      · rw [hC1]
      · rw [hPl1]
      · rw [hPO1]
      · rw [hRT1]
      · exact hext1
      · intro h
        exact absurd h hB
      · intro _
        rw [hT1, hHist1]
        exact ⟨rfl, rfl⟩

/-- Every reachable state of a well-formed configuration satisfies the
invariant. -/
lemma reachable_WF (g : GoofspielGame) (hN : 1 ≤ g.numCards)
    (hP : 2 ≤ g.numPlayers) {s : GoofspielState} (hr : Reachable g s) :
    WF s := by
  induction hr with
  | init => exact initialState_WF g hN hP
  | chance _ hch ha ih => exact chanceStep_WF _ _ ih hch ha
  | simMove _ hsim hval ih => exact (doApplyActions_WF _ _ ih hsim hval).1

lemma dealNextAndAdvance_seq_append (s : GoofspielState) :
    ∃ ext, (dealNextAndAdvance s).pointCardSequence
      = s.pointCardSequence ++ ext := by
  cases hpo : s.pointsOrder with
  | random =>
    exact ⟨[], by simp [(dealNextAndAdvance_random s hpo).2.2]⟩
  | ascending =>
    obtain ⟨_, hdeal, hnodeal⟩ := dealNextAndAdvance_asc s hpo
    by_cases hc : s.pointCard < (s.numCards : Int) - 1
    · exact ⟨[(s.pointCard + 1).toNat], (hdeal hc).1⟩
    · exact ⟨[], by simp [(hnodeal hc).1]⟩
  | descending =>
    obtain ⟨_, hdeal, hnodeal⟩ := dealNextAndAdvance_desc s hpo
    by_cases hc : s.pointCard > 0
    · exact ⟨[(s.pointCard - 1).toNat], (hdeal hc).1⟩
    · exact ⟨[], by simp [(hnodeal hc).1]⟩

lemma doApplyActionsAux_seq_append :
    ∀ (fuel : Nat) (s : GoofspielState) (actions : List Nat),
    ∃ ext, (doApplyActionsAux fuel s actions).pointCardSequence
      = s.pointCardSequence ++ ext := by
  intro fuel
  induction fuel with
  | zero => exact fun s actions => ⟨[], by simp [doApplyActionsAux]⟩
  | succ fuel ih =>
    intro s actions
    obtain ⟨e1, he1⟩ := dealNextAndAdvance_seq_append (resolveRound s actions)
    have hr10 : (resolveRound s actions).pointCardSequence
        = s.pointCardSequence := (resolveRound_proj s actions).2.2.2.2.2.2.2.2.2.1
    rw [hr10] at he1
    rw [doApplyActionsAux_succ]
    by_cases h1 : (dealNextAndAdvance (resolveRound s actions)).turns
        = (dealNextAndAdvance (resolveRound s actions)).numCards - 1
    · rw [if_pos h1]
      by_cases hch : isChanceNode (dealNextAndAdvance (resolveRound s actions)) = true
      · rw [if_pos hch]
        obtain ⟨e2, he2⟩ := ih
          (doApplyActionChance (dealNextAndAdvance (resolveRound s actions))
            ((legalChanceOutcomes (dealNextAndAdvance (resolveRound s actions))).headD 0))
          (forcedActions
            (doApplyActionChance (dealNextAndAdvance (resolveRound s actions))
              ((legalChanceOutcomes (dealNextAndAdvance (resolveRound s actions))).headD 0)))
        refine ⟨e1 ++ [(legalChanceOutcomes
            (dealNextAndAdvance (resolveRound s actions))).headD 0] ++ e2, ?_⟩
        rw [he2]
        show (dealNextAndAdvance (resolveRound s actions)).pointCardSequence
            ++ [(legalChanceOutcomes (dealNextAndAdvance (resolveRound s actions))).headD 0]
            ++ e2 = _
        rw [he1]
        simp
      · rw [if_neg (by simpa using hch)]
        obtain ⟨e2, he2⟩ := ih (dealNextAndAdvance (resolveRound s actions))
          (forcedActions (dealNextAndAdvance (resolveRound s actions)))
        refine ⟨e1 ++ e2, ?_⟩
        rw [he2, he1]
        simp
    · rw [if_neg h1]
      by_cases h2 : (dealNextAndAdvance (resolveRound s actions)).turns
          = (dealNextAndAdvance (resolveRound s actions)).numCards
      · rw [if_pos h2]
        exact ⟨e1, by rw [(setWinners_proj _).2.2.2.2.2.2.2.2.2.1, he1]⟩
      · rw [if_neg h2]
        exact ⟨e1, he1⟩

lemma doApplyActions_seq_append (s : GoofspielState) (actions : List Nat) :
    ∃ ext, (doApplyActions s actions).pointCardSequence
      = s.pointCardSequence ++ ext :=
  doApplyActionsAux_seq_append 2 s actions


/-! ## C3, C4, C7, C10: claim theorems over reachable states -/

/-- C3: from any reachable bidding state where the applied joint action
leaves exactly one round remaining (`turns + 2 = N`), the engine itself
finishes the game inside the same `DoApplyActions` call: the returned
state is terminal, the unique chance draw (if any) and every player's
unique last card have been applied through the same mutating path, and
the forced moves are recorded in the value-card history (full length
`N`) and in the action history. -/
theorem forced_final_round (g : GoofspielGame) (hN : 1 ≤ g.numCards)
    (hP : 2 ≤ g.numPlayers) (s : GoofspielState) (hr : Reachable g s)
    (hsim : isSimultaneousNode s = true) (hcnt : s.turns + 2 = s.numCards)
    (actions : List Nat) (hval : ValidActions s actions) :
    (doApplyActions s actions).turns = (doApplyActions s actions).numCards ∧
    isTerminal (doApplyActions s actions) = true ∧
    (doApplyActions s actions).pointCardSequence.length = s.numCards ∧
    (doApplyActions s actions).actionsHistory.length = s.numCards ∧
    ∃ forced, (doApplyActions s actions).actionsHistory
      = s.actionsHistory ++ [actions, forced] := by
  have hwf := reachable_WF g hN hP hr
  obtain ⟨hWF2, hC2, hPl2, hPO2, hRT2, hext2, hjump, _⟩ :=
    doApplyActions_WF s actions hwf hsim hval
  obtain ⟨hterm2, hforced⟩ := hjump hcnt
  refine ⟨hterm2, ?_, ?_, ?_, hforced⟩
  · simp [isTerminal, hterm2]
  · rw [WF_terminal_seqLen _ hWF2.1 hterm2, hC2]
  · rw [hWF2.1.histLen, hterm2, hC2]

/-- C3 witness: the 2-card ascending game finishes in a single
`DoApplyActions` call from the initial state. -/
theorem forced_final_round_witness :
    (doApplyActions
        (initialState ⟨2, 2, PointsOrder.ascending, ReturnsType.winLoss, false⟩)
        [0, 1]).turns =
      (doApplyActions
        (initialState ⟨2, 2, PointsOrder.ascending, ReturnsType.winLoss, false⟩)
        [0, 1]).numCards ∧
    isTerminal (doApplyActions
        (initialState ⟨2, 2, PointsOrder.ascending, ReturnsType.winLoss, false⟩)
        [0, 1]) = true ∧
    (doApplyActions
        (initialState ⟨2, 2, PointsOrder.ascending, ReturnsType.winLoss, false⟩)
        [0, 1]).pointCardSequence.length =
      (initialState ⟨2, 2, PointsOrder.ascending, ReturnsType.winLoss, false⟩).numCards ∧
    (doApplyActions
        (initialState ⟨2, 2, PointsOrder.ascending, ReturnsType.winLoss, false⟩)
        [0, 1]).actionsHistory.length =
      (initialState ⟨2, 2, PointsOrder.ascending, ReturnsType.winLoss, false⟩).numCards ∧
    ∃ forced, (doApplyActions
        (initialState ⟨2, 2, PointsOrder.ascending, ReturnsType.winLoss, false⟩)
        [0, 1]).actionsHistory =
      (initialState ⟨2, 2, PointsOrder.ascending, ReturnsType.winLoss, false⟩).actionsHistory
        ++ [[0, 1], forced] :=
  forced_final_round ⟨2, 2, PointsOrder.ascending, ReturnsType.winLoss, false⟩
    (by decide) (by decide) _ Reachable.init (by decide) (by decide)
    [0, 1] (by decide)

/-- C4 counterexample: already at the (reachable) initial state of the
2-card 2-player game, the hand sizes sum to `P * N = 4`, not
`N - rounds_played = 2`. -/
theorem hand_conservation_counterexample :
    Reachable ⟨2, 2, PointsOrder.ascending, ReturnsType.winLoss, false⟩
      (initialState ⟨2, 2, PointsOrder.ascending, ReturnsType.winLoss, false⟩) ∧
    ¬ (((initialState
          ⟨2, 2, PointsOrder.ascending, ReturnsType.winLoss, false⟩).playerHands.map
            (fun h => h.count true)).sum =
        (initialState
          ⟨2, 2, PointsOrder.ascending, ReturnsType.winLoss, false⟩).numCards -
        (initialState
          ⟨2, 2, PointsOrder.ascending, ReturnsType.winLoss, false⟩).turns) :=
  ⟨Reachable.init, by decide⟩

/-- C4 amended: in every reachable state each player's hand holds
exactly `N - rounds_played` cards, so the hand sizes sum to
`P * (N - rounds_played)` over all players (not `N - rounds_played`). -/
theorem hand_conservation (g : GoofspielGame) (hN : 1 ≤ g.numCards)
    (hP : 2 ≤ g.numPlayers) (s : GoofspielState) (hr : Reachable g s) :
    (∀ h ∈ s.playerHands, h.count true = s.numCards - s.turns) ∧
    (s.playerHands.map (fun h => h.count true)).sum
      = s.numPlayers * (s.numCards - s.turns) := by
  have hwf := reachable_WF g hN hP hr
  refine ⟨hwf.1.handCount, ?_⟩
  have hrep : s.playerHands.map (fun h => h.count true)
      = List.replicate s.numPlayers (s.numCards - s.turns) := by
    rw [List.eq_replicate_iff]
    refine ⟨by rw [List.length_map, hwf.1.handsLen], ?_⟩
    intro b hb
    rw [List.mem_map] at hb
    obtain ⟨h, hh, rfl⟩ := hb
    exact hwf.1.handCount h hh
  rw [hrep, List.sum_replicate, smul_eq_mul]

/-- C4 witness: the amended conservation law evaluated at the initial
state of the 2-card 2-player game. -/
theorem hand_conservation_witness :
    (∀ h ∈ (initialState
        ⟨2, 2, PointsOrder.ascending, ReturnsType.winLoss, false⟩).playerHands,
      h.count true =
        (initialState
          ⟨2, 2, PointsOrder.ascending, ReturnsType.winLoss, false⟩).numCards -
        (initialState
          ⟨2, 2, PointsOrder.ascending, ReturnsType.winLoss, false⟩).turns) ∧
    ((initialState
        ⟨2, 2, PointsOrder.ascending, ReturnsType.winLoss, false⟩).playerHands.map
          (fun h => h.count true)).sum =
      (initialState
        ⟨2, 2, PointsOrder.ascending, ReturnsType.winLoss, false⟩).numPlayers *
      ((initialState
          ⟨2, 2, PointsOrder.ascending, ReturnsType.winLoss, false⟩).numCards -
        (initialState
          ⟨2, 2, PointsOrder.ascending, ReturnsType.winLoss, false⟩).turns) :=
  hand_conservation ⟨2, 2, PointsOrder.ascending, ReturnsType.winLoss, false⟩
    (by decide) (by decide) _ Reachable.init

/-- C7 counterexample: at the (reachable) initial state of the 3-card
ascending game a value card is already revealed, so the history length
is `1`, not the number of completed rounds `0`. -/
theorem value_card_history_counterexample :
    Reachable ⟨3, 2, PointsOrder.ascending, ReturnsType.winLoss, false⟩
      (initialState ⟨3, 2, PointsOrder.ascending, ReturnsType.winLoss, false⟩) ∧
    ¬ ((initialState
          ⟨3, 2, PointsOrder.ascending, ReturnsType.winLoss, false⟩).pointCardSequence.length =
        (initialState
          ⟨3, 2, PointsOrder.ascending, ReturnsType.winLoss, false⟩).turns) :=
  ⟨Reachable.init, by decide⟩

/-- C7 amended: in every reachable state the value-card history is
append-only (both transition paths only ever append to it), and its
length equals the number of completed rounds while a chance draw is
pending (and at terminal states under random ordering), and
`min(rounds completed + 1, N)` while a value card is revealed at a
bidding node. -/
theorem value_card_history (g : GoofspielGame) (hN : 1 ≤ g.numCards)
    (hP : 2 ≤ g.numPlayers) (s : GoofspielState) (hr : Reachable g s) :
    s.pointCardSequence.length = seqLenSpec s ∧
    (∀ a, ∃ ext, (doApplyActionChance s a).pointCardSequence
      = s.pointCardSequence ++ ext) ∧
    (∀ actions, ∃ ext, (doApplyActions s actions).pointCardSequence
      = s.pointCardSequence ++ ext) := by
  have hwf := reachable_WF g hN hP hr
  refine ⟨hwf.1.seqLen, ?_, ?_⟩
  · intro a
    exact ⟨[a], rfl⟩
  · intro actions
    exact doApplyActions_seq_append s actions

/-- C7 witness: evaluated at the initial state of the 3-card ascending
game. -/
theorem value_card_history_witness :
    (initialState
        ⟨3, 2, PointsOrder.ascending, ReturnsType.winLoss, false⟩).pointCardSequence.length =
      seqLenSpec (initialState
        ⟨3, 2, PointsOrder.ascending, ReturnsType.winLoss, false⟩) ∧
    (∀ a, ∃ ext,
      (doApplyActionChance
        (initialState ⟨3, 2, PointsOrder.ascending, ReturnsType.winLoss, false⟩)
        a).pointCardSequence =
      (initialState
        ⟨3, 2, PointsOrder.ascending, ReturnsType.winLoss, false⟩).pointCardSequence
        ++ ext) ∧
    (∀ actions, ∃ ext,
      (doApplyActions
        (initialState ⟨3, 2, PointsOrder.ascending, ReturnsType.winLoss, false⟩)
        actions).pointCardSequence =
      (initialState
        ⟨3, 2, PointsOrder.ascending, ReturnsType.winLoss, false⟩).pointCardSequence
        ++ ext) :=
  value_card_history ⟨3, 2, PointsOrder.ascending, ReturnsType.winLoss, false⟩
    (by decide) (by decide) _ Reachable.init

/-- C10: in every reachable state the value-card sequence has no
duplicates; `ChanceOutcomes` gives positive probability only to cards
not already revealed, each with probability exactly
`1 / (number of remaining cards)` (positive at chance nodes); and under
the ascending/descending orderings the sequence is exactly the
increasing/decreasing run of adjacent fresh indices.  Hence every value
card is revealed at most once per play-through. -/
theorem chance_fresh_cards (g : GoofspielGame) (hN : 1 ≤ g.numCards)
    (hP : 2 ≤ g.numPlayers) (s : GoofspielState) (hr : Reachable g s) :
    s.pointCardSequence.Nodup ∧
    (∀ pr ∈ chanceOutcomes s, pr.1 ∉ s.pointCardSequence ∧
      pr.2 = (1 : ℚ) /
        ((s.numCards - s.pointCardSequence.length : Nat) : ℚ)) ∧
    (isChanceNode s = true → ∀ pr ∈ chanceOutcomes s, 0 < pr.2) ∧
    (s.pointsOrder = PointsOrder.ascending →
      s.pointCardSequence = List.range s.pointCardSequence.length) ∧
    (s.pointsOrder = PointsOrder.descending →
      s.pointCardSequence = (List.range s.pointCardSequence.length).map
        (fun i => s.numCards - 1 - i)) := by
  have hwf := reachable_WF g hN hP hr
  have hnd := hwf.1.seqNodup
  have hdedup : s.pointCardSequence.dedup = s.pointCardSequence :=
    List.Nodup.dedup hnd
  refine ⟨hnd, ?_, ?_, fun h => (hwf.1.ascInv h).2, fun h => (hwf.1.descInv h).2⟩
  · intro pr hpr
    obtain ⟨_, hnotin, hprob⟩ := chanceOutcomes_mem_spec s pr hpr
    rw [hdedup] at hprob
    exact ⟨hnotin, hprob⟩
  · intro hch pr hpr
    obtain ⟨_, _, hprob⟩ := chanceOutcomes_mem_spec s pr hpr
    rw [hdedup] at hprob
    have hcur : s.currentPlayer = NodePlayer.chance := by
      simp [isChanceNode, isTerminal] at hch
      exact hch.2
    have hterm : s.turns ≠ s.numCards := by
      simp [isChanceNode, isTerminal] at hch
      exact hch.1
    have hlen : s.pointCardSequence.length = s.turns := by
      rw [hwf.1.seqLen]
      simp [seqLenSpec, hcur]
    have hrem : 1 ≤ s.numCards - s.pointCardSequence.length := by
      have := hwf.1.turnsLe
      omega
    rw [hprob]
    have : (0 : ℚ) < ((s.numCards - s.pointCardSequence.length : Nat) : ℚ) := by
      exact_mod_cast hrem
    positivity

/-- C10 witness: evaluated at the initial chance node of the 2-card
random-order game. -/
theorem chance_fresh_cards_witness :
    (initialState
        ⟨2, 2, PointsOrder.random, ReturnsType.winLoss, false⟩).pointCardSequence.Nodup ∧
    (∀ pr ∈ chanceOutcomes
        (initialState ⟨2, 2, PointsOrder.random, ReturnsType.winLoss, false⟩),
      pr.1 ∉ (initialState
          ⟨2, 2, PointsOrder.random, ReturnsType.winLoss, false⟩).pointCardSequence ∧
      pr.2 = (1 : ℚ) /
        (((initialState
            ⟨2, 2, PointsOrder.random, ReturnsType.winLoss, false⟩).numCards -
          (initialState
            ⟨2, 2, PointsOrder.random, ReturnsType.winLoss, false⟩).pointCardSequence.length
            : Nat) : ℚ)) ∧
    (isChanceNode (initialState
        ⟨2, 2, PointsOrder.random, ReturnsType.winLoss, false⟩) = true →
      ∀ pr ∈ chanceOutcomes
        (initialState ⟨2, 2, PointsOrder.random, ReturnsType.winLoss, false⟩),
        0 < pr.2) ∧
    ((initialState
        ⟨2, 2, PointsOrder.random, ReturnsType.winLoss, false⟩).pointsOrder
        = PointsOrder.ascending →
      (initialState
        ⟨2, 2, PointsOrder.random, ReturnsType.winLoss, false⟩).pointCardSequence =
      List.range (initialState
        ⟨2, 2, PointsOrder.random, ReturnsType.winLoss, false⟩).pointCardSequence.length) ∧
    ((initialState
        ⟨2, 2, PointsOrder.random, ReturnsType.winLoss, false⟩).pointsOrder
        = PointsOrder.descending →
      (initialState
        ⟨2, 2, PointsOrder.random, ReturnsType.winLoss, false⟩).pointCardSequence =
      (List.range (initialState
          ⟨2, 2, PointsOrder.random,
            ReturnsType.winLoss, false⟩).pointCardSequence.length).map
        (fun i => (initialState
            ⟨2, 2, PointsOrder.random, ReturnsType.winLoss, false⟩).numCards - 1 - i)) :=
  chance_fresh_cards ⟨2, 2, PointsOrder.random, ReturnsType.winLoss, false⟩
    (by decide) (by decide) _ Reachable.init

end Goofspiel
